import Mathlib

/-!
Verification of the radial virus-presence chart (`virusPresenceInAnts.js`).

The script is a straight-line sequence: CSV parsing (building `csvData`,
`numVP`, the multi-presence map `vMP` and the species list `aSpNames`),
indentation-level assignment, radial dot layout, and selection/highlight
interaction handlers.  Everything below is a shallow embedding of that
code: strings are Lean `String`s, JavaScript numbers that matter to the
claims are `ℚ` (exact rationals; the trigonometric placement `rot_pt` is
embedded over `ℝ`), JavaScript objects are insertion-ordered association
lists (later assignment wins on lookup, matching property assignment),
and `undefined` is `Option.none`.
-/

namespace VirusChart

/-- Splitting a string at a single separator character, as JavaScript
`string.split(sep)` behaves for one-character separators:
`"".split(sep) = [""]`, and consecutive separators yield empty pieces.
(The source only ever splits on the one-character separators
`'\n'`, `','`, `' '` and `'_'`.) -/
def splitOnChar (sep : Char) : List Char → List (List Char)
  | [] => [[]]
  | c :: cs =>
    let r := splitOnChar sep cs
    if c = sep then [] :: r
    else
      match r with
      | [] => [[c]]
      | h :: t => (c :: h) :: t

/-- JavaScript `line.split(sep)` for a one-character separator. -/
def jsSplit (s : String) (sep : Char) : List String :=
  (splitOnChar sep s.data).map String.mk

/-- JavaScript `s.replace(/\s+/g, "")`: remove every whitespace character. -/
def stripWS (s : String) : String :=
  String.mk (s.data.filter (fun c => !c.isWhitespace))

/-- Source `arrayRemove(arr, value)`: `arr.filter(ele => ele != value)`
(it removes every occurrence of `value`). -/
def arrayRemove (arr : List String) (value : String) : List String :=
  arr.filter (fun ele => ele != value)

/-- Append-if-absent, the `if (a.includes(x) == false) a.push(x)` idiom used
for `aSpNames` and for the per-record `vMP_antSpecies` list. -/
def dedupPush (l : List String) (x : String) : List String :=
  if l.contains x then l else l ++ [x]

/-- Lookup in a JavaScript object represented as the list of assignments in
program order: the LAST assignment to a key wins, an absent key is
`undefined` (`none`). -/
def objGet : List (String × String) → String → Option String
  | [], _ => none
  | p :: rest, k =>
    match objGet rest k with
    | some v => some v
    | none => if p.1 == k then some p.2 else none

/-- The species name derived from a column title:
`names = colTitle.split(" "); names[0] + " " + names[1]`.
In JavaScript an out-of-range index is `undefined`, which stringifies to
`"undefined"` under concatenation, hence the defaults. -/
def speciesOf (colName : String) : String :=
  let names := jsSplit colName ' '
  (names.getD 0 "undefined") ++ " " ++ (names.getD 1 "undefined")

/-- Is `c` a hexadecimal digit (for the `0x` prefix handling of `parseInt`). -/
def hexDigit (c : Char) : Bool :=
  c.isDigit || ('a' ≤ c && c ≤ 'f') || ('A' ≤ c && c ≤ 'F')

/-- The test `parseInt(v) == 0` from the dot-layout loop.
`parseInt` skips leading whitespace, accepts an optional sign, then reads
the longest digit prefix (hexadecimal after a `0x`/`0X` prefix); with no
digits it yields `NaN`, and `NaN == 0` is `false` — in particular
`parseInt(undefined)` is `NaN`, so an `undefined` cell is NOT skipped.
The parsed value equals `0` exactly when the digit prefix is nonempty and
consists solely of `'0'` characters (the sign is irrelevant to `== 0`). -/
def jsParseIntEqZero : Option String → Bool
  | none => false
  | some s =>
    let cs := s.data.dropWhile Char.isWhitespace
    let cs :=
      match cs with
      | '-' :: t => t
      | '+' :: t => t
      | _ => cs
    let ds :=
      match cs with
      | '0' :: 'x' :: t => t.takeWhile hexDigit
      | '0' :: 'X' :: t => t.takeWhile hexDigit
      | _ => cs.takeWhile Char.isDigit
    !ds.isEmpty && ds.all (fun c => c == '0')

/-- Source `numPopulations = 3`: number of populations in each ant species. -/
def numPopulations : ℕ := 3

/-- The fixed classification-to-color map `cCol`. -/
def cCol : List (String × String) :=
  [("Bunyavirales", "rgb(255,127,255)"),
   ("Mononegavirales", "rgb(0,0,0)"),
   ("Narnaviridae", "rgb(127,0,255)"),
   ("Nodaviridae", "rgb(255,127,127)"),
   ("Permutotetraviridae", "rgb(127,0,0)"),
   ("Picornavirales", "rgb(255,0,0)"),
   ("Totiviridae", "rgb(255,127,0)"),
   ("Unclassified", "rgb(127,127,127)")]

/-- One entry of `vMP`, the map of viruses showing multiple presences:
`{indentLevel, presenceCnt, antSpecies, degArr, vi}`. -/
structure VMP where
  indentLevel : ℕ
  presenceCnt : ℕ
  antSpecies : List String
  degArr : List ℚ
  vi : ℕ
deriving DecidableEq, Repr

/-- Assignment `vMP[k] = v` on the insertion-ordered object: overwrite in
place when the key exists, append otherwise (JavaScript objects keep the
first-insertion position of a key). -/
def vmpSet (m : List (String × VMP)) (k : String) (v : VMP) :
    List (String × VMP) :=
  if m.any (fun p => p.1 == k) then
    m.map (fun p => if p.1 == k then (p.1, v) else p)
  else m ++ [(k, v)]

/-- Source `vMP[vSp]["degArr"].push(deg)` for an existing key. -/
def updDeg (m : List (String × VMP)) (k : String) (deg : ℚ) :
    List (String × VMP) :=
  m.map (fun p =>
    if p.1 == k then (p.1, { p.2 with degArr := p.2.degArr ++ [deg] }) else p)

/-- The mutable state of the CSV-parsing loop. -/
structure ParseSt where
  csvData : List (List (String × String))
  numVP : ℕ
  vMP : List (String × VMP)
deriving DecidableEq, Repr

/-- One iteration of the parse loop (lines 48-81 of the source) for the
line with index `li`.  A row with fewer comma-split fields than
`colTitle` is skipped entirely.  Otherwise every cell is whitespace-
stripped; each cell equal to `"1"` bumps `numVP` and records the species
of its column; the row becomes the `colTitle → cell` object `lineData`;
and a row with more than one presence is stored in `vMP` under the value
of its first column (`lineData[colTitle[0]]`), with `indentLevel` 0,
empty `degArr` and `vi = li - 1`. -/
def parseRow (colTitle : List String) (st : ParseSt) (li : ℕ)
    (line : String) : ParseSt :=
  let items := jsSplit line ','
  if items.length < colTitle.length then st
  else
    let cells := (items.take colTitle.length).map stripWS
    let lineData := colTitle.zip cells
    let presenceCnt := cells.countP (fun c => c == "1")
    let antSpecies := (colTitle.zip cells).foldl
      (fun acc p => if p.2 == "1" then dedupPush acc (speciesOf p.1) else acc)
      []
    let st1 := { st with
      csvData := st.csvData ++ [lineData],
      numVP := st.numVP + presenceCnt }
    if 1 < presenceCnt then
      let vSp := (objGet lineData (colTitle.getD 0 "undefined")).getD "undefined"
      { st1 with vMP := vmpSet st1.vMP vSp ⟨0, presenceCnt, antSpecies, [], li - 1⟩ }
    else st1

/-- The parse loop over the data lines (line indices start at 1). -/
def parseLines (colTitle : List String) : ℕ → List String → ParseSt → ParseSt
  | _, [], st => st
  | li, line :: rest, st =>
    parseLines colTitle (li + 1) rest (parseRow colTitle st li line)

/-- Everything the loader produces. -/
structure ParseOut where
  colTitle : List String
  aSpNames : List String
  csvData : List (List (String × String))
  numVP : ℕ
  vMP : List (String × VMP)
deriving DecidableEq, Repr

/-- The loader (lines 25-81): split into lines; the column titles are the
comma-split header items whose whitespace-stripped form is nonempty; the
ant-species names are the deduplicated `speciesOf` values of the column
titles from index 2 on; then the data lines are parsed. -/
def parseCSV (data : String) : ParseOut :=
  let lines := jsSplit data '\n'
  let items := jsSplit (lines.getD 0 "") ','
  let colTitle := items.filter (fun s => stripWS s != "")
  let aSpNames := (colTitle.drop 2).foldl
    (fun acc c => dedupPush acc (speciesOf c)) []
  let st := parseLines colTitle 1 (lines.drop 1) ⟨[], 0, []⟩
  ⟨colTitle, aSpNames, st.csvData, st.numVP, st.vMP⟩

/-- Does this `vMP` entry qualify for a single-category indentation level
for species `aSp`?  The source skips an entry when
`antSpecies.length > 1` or when `antSpecies` does not include `aSp`;
this is the negation of those two skip conditions. -/
def singleQual (aSp : String) (p : String × VMP) : Bool :=
  !(decide (1 < p.2.antSpecies.length)) && p.2.antSpecies.contains aSp

/-- Does this `vMP` entry span several ant species
(`antSpecies.length > 1`)? -/
def crossQual (p : String × VMP) : Bool :=
  decide (1 < p.2.antSpecies.length)

/-- The inner loop of the per-species indentation pass (lines 87-95):
walk the `vMP` entries in mapping order with counter `cnt`; each
qualifying entry increments the counter and receives it as its
indentation level.  Returns the updated map and the final counter. -/
def assignIndentSpAux (aSp : String) (cnt : ℕ) :
    List (String × VMP) → List (String × VMP) × ℕ
  | [] => ([], cnt)
  | p :: rest =>
    if singleQual aSp p then
      let r := assignIndentSpAux aSp (cnt + 1) rest
      ((p.1, { p.2 with indentLevel := cnt + 1 }) :: r.1, r.2)
    else
      let r := assignIndentSpAux aSp cnt rest
      (p :: r.1, r.2)

/-- The outer loop over ant species (lines 84-96), collecting the final
counter of each species (the `indentLevel` array of the source). -/
def assignIndentSps : List String → List (String × VMP) →
    List (String × VMP) × List ℕ
  | [], m => (m, [])
  | aSp :: rest, m =>
    let r1 := assignIndentSpAux aSp 0 m
    let r2 := assignIndentSps rest r1.1
    (r2.1, r1.2 :: r2.2)

/-- Source `Math.max(...l)` for the per-species counters.  (For an empty species
list JavaScript would give `-Infinity`; every claim below assumes at
least one species, where the two agree.) -/
def maxNat (l : List ℕ) : ℕ := l.foldl max 0

/-- The cross-species indentation pass (lines 99-105): the running level
starts at `lvl0 = Math.max(...counters) + 1`, and every entry spanning
several species pre-increments it and receives the result. -/
def assignIndentCrossAux (lvl : ℕ) :
    List (String × VMP) → List (String × VMP)
  | [] => []
  | p :: rest =>
    if crossQual p then
      (p.1, { p.2 with indentLevel := lvl + 1 }) :: assignIndentCrossAux (lvl + 1) rest
    else p :: assignIndentCrossAux lvl rest

/-- The whole indentation-assignment phase (lines 83-105). -/
def assignIndent (aSpNames : List String) (m : List (String × VMP)) :
    List (String × VMP) :=
  let r := assignIndentSps aSpNames m
  assignIndentCrossAux (maxNat r.2 + 1) r.1

/-- The data stored for one virus presence dot.  The source stores the
rotated point `(x, y)`; here the dot keeps the degree `deg` and the
radial offset `radOff = posX - ct[0]` from which `(x, y)` is
`rot_pt([ct[0] + radOff, ct[1]], ct, deg)` (see `dotCenter`). -/
structure DotD where
  deg : ℚ
  radOff : ℚ
  r : ℚ
  aSi : ℕ
  aPi : ℕ
  vSp : Option String
  vCl : Option String
  col : Option String
deriving DecidableEq, Repr

/-- The presence test of the dot-layout loop (lines 163-166):
`cT = colTitle[ci]; if (parseInt(csvData[vi][cT]) == 0) continue;` with
`ci = 2 + si*numPopulations + pi`.  An out-of-range column index gives an
`undefined` title, whose cell is `undefined`; `parseInt(undefined)` is
`NaN`, which is not `== 0`, so such a cell is treated as present. -/
def presentAt (P : ParseOut) (si pi vi : ℕ) : Bool :=
  let cT := P.colTitle.get? (2 + si * numPopulations + pi)
  let v : Option String :=
    match cT with
    | none => none
    | some c => objGet (P.csvData.getD vi []) c
  !jsParseIntEqZero v

/-- The dot built at slot `cnt` for row `vi` in population `pi` of species
`si` (lines 167-200), with `M` the current multi-presence map:
`vpDeg = 360/numVP`, `deg = cnt*vpDeg + 180`,
`posX = ct[0] + radIC` indented by `vMPInd * indentLevel` for a
multi-presence virus (`vMPInd = radVP * 2`), and radius `radVP`,
enlarged to `radVP * 1.25` for a virus spanning several species. -/
def mkDot (P : ParseOut) (M : List (String × VMP)) (radIC radVP : ℚ)
    (cnt si pi vi : ℕ) : DotD :=
  let vpDeg : ℚ := 360 / (P.numVP : ℚ)
  let deg : ℚ := (cnt : ℚ) * vpDeg + 180
  let row := P.csvData.getD vi []
  let vSp := objGet row "Virus species"
  let vCl := objGet row "Classification"
  let ent : Option VMP :=
    match vSp with
    | some v => List.lookup v M
    | none => none
  let vMPInd : ℚ := radVP * 2
  let radOff : ℚ :=
    match ent with
    | some e => radIC - vMPInd * (e.indentLevel : ℚ)
    | none => radIC
  let r : ℚ :=
    match ent with
    | some e => if 1 < e.antSpecies.length then radVP * (5 / 4) else radVP
    | none => radVP
  let col : Option String :=
    match vCl with
    | some c => objGet cCol c
    | none => none
  ⟨deg, radOff, r, si, pi, vSp, vCl, col⟩

/-- The traversal order of the dot-layout loop: species index, then
population index (`numPopulations` of them), then row index, in loader
order. -/
def layoutTriples (nSp nRows : ℕ) : List (ℕ × ℕ × ℕ) :=
  ((List.range nSp).map fun si =>
    ((List.range numPopulations).map fun pi =>
      (List.range nRows).map fun vi => (si, pi, vi)).flatten).flatten

/-- The dot-layout loop (lines 155-207) over the traversal triples:
`cnt` is `cntDrawnVP`, `M` the multi-presence map being mutated (its
`degArr` receives `deg + 90` for every dot of a multi-presence virus).
Returns the dot list `vpd` and the final map. -/
def layoutAux (P : ParseOut) (radIC radVP : ℚ) :
    ℕ → List (String × VMP) → List (ℕ × ℕ × ℕ) →
    List DotD × List (String × VMP)
  | _, M, [] => ([], M)
  | cnt, M, t :: ts =>
    if presentAt P t.1 t.2.1 t.2.2 then
      let d := mkDot P M radIC radVP cnt t.1 t.2.1 t.2.2
      let M' :=
        match d.vSp with
        | some v => if (List.lookup v M).isSome then updDeg M v (d.deg + 90) else M
        | none => M
      let r := layoutAux P radIC radVP (cnt + 1) M' ts
      (d :: r.1, r.2)
    else layoutAux P radIC radVP cnt M ts

/-- The dot layout applied to a parse result (whose `vMP` is expected to
have been through `assignIndent`). -/
def layout (P : ParseOut) (radIC radVP : ℚ) :
    List DotD × List (String × VMP) :=
  layoutAux P radIC radVP 0 P.vMP
    (layoutTriples P.aSpNames.length P.csvData.length)

/-- The full pipeline on a CSV text: parse, assign indentation levels,
lay out the dots. -/
def processCSV (data : String) (radIC radVP : ℚ) : ParseOut × List DotD :=
  let P0 := parseCSV data
  let P := { P0 with vMP := assignIndent P0.aSpNames P0.vMP }
  (P, (layout P radIC radVP).1)

/-- The angular slot of dot `k` on a chart with `numVP` presences: the
half-open interval of width `360 / numVP` degrees starting at
`180 + k * (360 / numVP)`. -/
def vpSlot (numVP : ℕ) (k : ℕ) : Set ℚ :=
  Set.Ico (180 + (k : ℚ) * (360 / (numVP : ℚ)))
    (180 + ((k : ℚ) + 1) * (360 / (numVP : ℚ)))

/-- The `vMP` entry a dot's virus name refers to (the `vSp in vMP` lookup
of the layout loop); `none` when the name is `undefined` or not in the
map. -/
def dotEnt (vMP : List (String × VMP)) (d : DotD) : Option VMP :=
  match d.vSp with
  | some v => List.lookup v vMP
  | none => none

/-- Does the dot's record span more than one ant species
(`vSp in vMP && vMP[vSp].antSpecies.length > 1`)? -/
def dotSpansMultiple (vMP : List (String × VMP)) (d : DotD) : Bool :=
  match dotEnt vMP d with
  | some e => decide (1 < e.antSpecies.length)
  | none => false

/-- Source `rot_pt(pt, ct, deg)` (lines 9-19): clockwise rotation of `pt` around
`ct` in screen coordinates; `r = -deg * (Math.PI/180)`. -/
noncomputable def rot_pt (pt ct : ℝ × ℝ) (deg : ℝ) : ℝ × ℝ :=
  let r := -deg * (Real.pi / 180)
  let tx := pt.1 - ct.1
  let ty := pt.2 - ct.2
  (tx * Real.cos r + ty * Real.sin r + ct.1,
   -tx * Real.sin r + ty * Real.cos r + ct.2)

/-- The drawn center of a dot (line 181):
`pt = rot_pt([posX, ct[1]], ct, deg)` with `posX = ct[0] + radOff`. -/
noncomputable def dotCenter (ct : ℝ × ℝ) (d : DotD) : ℝ × ℝ :=
  rot_pt (ct.1 + (d.radOff : ℝ), ct.2) ct (d.deg : ℝ)

/-- The rendered state relevant to the selection claims: the selection
array `selectedEntry`, the radius attribute of each virus's presence dots
(`emphVPDots` always sets all dots of one virus to the same value), and
the number of `vpTxt_<v>` / `vPConnLine_<v>` elements in the document.
(The legend font attributes toggled by `emphLegTxt` carry no state the
claims mention and are not tracked.) -/
@[ext]
structure ChartSt where
  selectedEntry : List String
  rad : String → ℚ
  nTxt : String → ℕ
  nLine : String → ℕ

/-- The radius `emphVPDots` computes when de-emphasising the dots of
`vSp` (lines 516-520): `radVP`, or `radVP * 1.25` when the virus is in
`vMP` with more than one ant species. -/
def baseRad (vMP : List (String × VMP)) (radVP : ℚ) (vSp : String) : ℚ :=
  match List.lookup vSp vMP with
  | some e => if 1 < e.antSpecies.length then radVP * (5 / 4) else radVP
  | none => radVP

/-- Source `emphVPDots(flagEmph, vSp)` (lines 452-534).  Emphasis sets the dots'
radius to `radVP * 1.5` and appends the name label and the connecting
polyline; de-emphasis restores the radius to `baseRad` and removes one
label and one line element (`d3.select("#id").remove()` removes the first
match and does nothing when none exists — truncated subtraction). -/
def emphVPDots (vMP : List (String × VMP)) (radVP : ℚ) (flagEmph : Bool)
    (vSp : String) (st : ChartSt) : ChartSt :=
  if flagEmph then
    { st with
      rad := Function.update st.rad vSp (radVP * (3 / 2)),
      nTxt := Function.update st.nTxt vSp (st.nTxt vSp + 1),
      nLine := Function.update st.nLine vSp (st.nLine vSp + 1) }
  else
    { st with
      rad := Function.update st.rad vSp (baseRad vMP radVP vSp),
      nTxt := Function.update st.nTxt vSp (st.nTxt vSp - 1),
      nLine := Function.update st.nLine vSp (st.nLine vSp - 1) }

/-- The kind of entry the handler derives from the DOM id: ids
`legV_<v>` and `vDot_<v>_<si>_<pi>` denote the virus `v`, ids
`legCl_<c>` denote the classification `c`. -/
inductive Entry where
  | virus (v : String)
  | vClass (c : String)
deriving DecidableEq

/-- The entry name used in `selectedEntry`:
`eType + "_" + vSp`. -/
def entryName : Entry → String
  | .virus v => "virus_" ++ v
  | .vClass c => "vClassification_" ++ c

/-- The loop body of the classification-deselect branch (lines 399-409):
de-emphasise the dots of one virus under the classification and remove
its entry (every occurrence) from `selectedEntry`. -/
def deselStep (vMP : List (String × VMP)) (radVP : ℚ) (s : ChartSt)
    (vSp : String) : ChartSt :=
  let s1 := emphVPDots vMP radVP false vSp s
  { s1 with selectedEntry := arrayRemove s1.selectedEntry ("virus_" ++ vSp) }

/-- The loop body of the classification-select branch (lines 424-432):
emphasise the dots of one virus under the classification and push its
entry onto `selectedEntry` (unconditionally, with no membership
check). -/
def selStep (vMP : List (String × VMP)) (radVP : ℚ) (s : ChartSt)
    (vSp : String) : ChartSt :=
  let s1 := emphVPDots vMP radVP true vSp s
  { s1 with selectedEntry := s1.selectedEntry ++ ["virus_" ++ vSp] }

/-- Source `selectVirusEntry` (lines 374-435).  `tLeg` maps a classification to
the viruses listed under it in the legend.  A selected entry is toggled
off (classification: together with every virus under it), an unselected
one is toggled on (classification: every virus under it is emphasised and
pushed). -/
def selectVirusEntry (tLeg : List (String × List String))
    (vMP : List (String × VMP)) (radVP : ℚ) (e : Entry) (st : ChartSt) :
    ChartSt :=
  let eName := entryName e
  if st.selectedEntry.contains eName then
    match e with
    | .virus vSp =>
      let st1 := emphVPDots vMP radVP false vSp st
      { st1 with selectedEntry := arrayRemove st1.selectedEntry eName }
    | .vClass c =>
      let st1 := { st with selectedEntry := arrayRemove st.selectedEntry eName }
      ((List.lookup c tLeg).getD []).foldl (deselStep vMP radVP) st1
  else
    match e with
    | .virus vSp =>
      let st1 := emphVPDots vMP radVP true vSp st
      { st1 with selectedEntry := st1.selectedEntry ++ [eName] }
    | .vClass c =>
      let st1 := { st with selectedEntry := st.selectedEntry ++ [eName] }
      ((List.lookup c tLeg).getD []).foldl (selStep vMP radVP) st1

/-- The mouse-over handler on a presence dot (lines 356-360): it just
calls `selectVirusEntry` on the entry derived from the target's id. -/
def onMouseOverVPD (tLeg : List (String × List String))
    (vMP : List (String × VMP)) (radVP : ℚ) (e : Entry) (st : ChartSt) :
    ChartSt :=
  selectVirusEntry tLeg vMP radVP e st

/-- The mouse-out handler on a presence dot (lines 362-366): identical
call to `selectVirusEntry`. -/
def onMouseOutVPD (tLeg : List (String × List String))
    (vMP : List (String × VMP)) (radVP : ℚ) (e : Entry) (st : ChartSt) :
    ChartSt :=
  selectVirusEntry tLeg vMP radVP e st

/-- The click handler on legend/arc texts (lines 368-372): identical call
to `selectVirusEntry`. -/
def onMouseClick (tLeg : List (String × List String))
    (vMP : List (String × VMP)) (radVP : ℚ) (e : Entry) (st : ChartSt) :
    ChartSt :=
  selectVirusEntry tLeg vMP radVP e st

/-- A valid CSV input in the sense of the specification's external
interface: distinct column titles; the columns from index 2 on come in
`numPopulations`-sized groups, one group per ant species, the species
name of each column in group `s` being `aSpNames[s]`; every data cell is
`"0"` or `"1"` after stripping; the first two cells of a row (virus name
and classification) are never `"1"`; and there is at least one
presence. -/
def validB (P : ParseOut) : Bool :=
  let n := P.colTitle.length
  let k := P.aSpNames.length
  decide P.colTitle.Nodup &&
  (n == 2 + 3 * k) &&
  decide (0 < P.numVP) &&
  ((List.range k).all fun s => (List.range numPopulations).all fun p =>
      speciesOf (P.colTitle.getD (2 + s * numPopulations + p) "") ==
        P.aSpNames.getD s "") &&
  (P.csvData.all fun row =>
      (row.map Prod.fst == P.colTitle) &&
      ((row.take 2).all fun q => q.2 != "1") &&
      ((row.drop 2).all fun q => q.2 == "0" || q.2 == "1"))

/-- The example input of the specification (section 8): the header
`Virus,Class,SpA Pop1,...,SpB Pop3` and two data rows each containing
exactly one `"1"`. -/
def exCsvSpec : String :=
  "Virus,Class,SpA Pop1,SpA Pop2,SpA Pop3,SpB Pop1,SpB Pop2,SpB Pop3\nV1,CL,1,0,0,0,0,0\nV2,CL,0,0,0,1,0,0"

/-- The specification's example repaired so that each ant-species column
group actually shares its first two whitespace-separated words (the
naming convention of section 6): species `"SpA X"` and `"SpB X"`, three
population columns each, two data rows each containing exactly one
`"1"`. -/
def exCsvPair : String :=
  "Virus species,Classification,SpA X Pop1,SpA X Pop2,SpA X Pop3,SpB X Pop1,SpB X Pop2,SpB X Pop3\nV1,Totiviridae,1,0,0,0,0,0\nV2,Totiviridae,0,0,0,1,0,0"

/-- A small valid input with some structure: two two-word species, a
virus `VX` present in both species (cross-species), a virus `VY` present
twice within the first species, and a virus `VZ` with a single
presence. -/
def exCsvFull : String :=
  "Virus species,Classification,Ant One Pop1,Ant One Pop2,Ant One Pop3,Ant Two Pop1,Ant Two Pop2,Ant Two Pop3\nVX,Picornavirales,1,0,0,1,0,0\nVY,Totiviridae,1,1,0,0,0,0\nVZ,Totiviridae,0,0,0,1,0,0"

/-- A tiny legend and state for exercising the selection handlers: one
classification `"CL"` holding the single virus `"V1"`. -/
def tLegEx : List (String × List String) := [("CL", ["V1"])]

/-- A rendered baseline state: nothing selected, every dot at radius 1,
no floating labels or connecting lines. -/
def stEmpty : ChartSt := ⟨[], fun _ => 1, fun _ => 0, fun _ => 0⟩

/-- A reachable state in which the virus `V1` has been selected on its
own (its dots enlarged to `radVP * 1.5 = 3/2`, its label and line drawn)
while its classification `CL` is still unselected. -/
def stV1Sel : ChartSt := ⟨["virus_V1"], fun _ => 3 / 2, fun _ => 1, fun _ => 1⟩

/-- The records affected by toggling an entry: a virus affects itself; a
classification affects every virus listed under it in the legend. -/
def members (tLeg : List (String × List String)) : Entry → List String
  | .virus v => [v]
  | .vClass c => (List.lookup c tLeg).getD []

/-! ### Helper lemmas: interaction state -/

theorem emph_sel (vMP : List (String × VMP)) (radVP : ℚ) (b : Bool)
    (vSp : String) (st : ChartSt) :
    (emphVPDots vMP radVP b vSp st).selectedEntry = st.selectedEntry := by
  unfold emphVPDots
  split <;> rfl

theorem foldl_deselStep_sel (vMP : List (String × VMP)) (radVP : ℚ) :
    ∀ (l : List String) (s : ChartSt),
      (l.foldl (deselStep vMP radVP) s).selectedEntry =
        l.foldl (fun acc v => arrayRemove acc ("virus_" ++ v)) s.selectedEntry
  | [], s => rfl
  | v :: l, s => by
    rw [List.foldl_cons, List.foldl_cons, foldl_deselStep_sel vMP radVP l]
    congr 1

theorem foldl_selStep_sel (vMP : List (String × VMP)) (radVP : ℚ) :
    ∀ (l : List String) (s : ChartSt),
      (l.foldl (selStep vMP radVP) s).selectedEntry =
        s.selectedEntry ++ l.map (fun v => "virus_" ++ v)
  | [], s => by simp
  | v :: l, s => by
    rw [List.foldl_cons, foldl_selStep_sel vMP radVP l]
    simp [selStep, emph_sel]

theorem mem_of_mem_foldl_arrayRemove (x : String) :
    ∀ (l : List String) (s : List String),
      x ∈ l.foldl (fun acc v => arrayRemove acc ("virus_" ++ v)) s → x ∈ s
  | [], _, h => h
  | v :: l, s, h => by
    have h1 := mem_of_mem_foldl_arrayRemove x l (arrayRemove s ("virus_" ++ v)) h
    exact (List.mem_filter.mp h1).1

theorem mem_arrayRemove_iff (x y : String) (l : List String) :
    x ∈ arrayRemove l y ↔ x ∈ l ∧ x ≠ y := by
  simp [arrayRemove]

/-- The membership-flip fact behind claims C2/C4/C8: toggling an entry
flips the membership of its own name in `selectedEntry`. -/
theorem selectVirusEntry_flip (tLeg : List (String × List String))
    (vMP : List (String × VMP)) (radVP : ℚ) (e : Entry) (st : ChartSt) :
    entryName e ∈ (selectVirusEntry tLeg vMP radVP e st).selectedEntry ↔
      entryName e ∉ st.selectedEntry := by
  unfold selectVirusEntry
  by_cases h : entryName e ∈ st.selectedEntry
  · rw [if_pos (by simpa using h)]
    cases e with
    | virus v =>
      simp only [emph_sel]
      simp [mem_arrayRemove_iff, h]
    | vClass c =>
      constructor
      · intro hmem
        have h1 := mem_of_mem_foldl_arrayRemove _ _ _
          ((foldl_deselStep_sel vMP radVP _ _) ▸ hmem)
        exact absurd ((mem_arrayRemove_iff _ _ _).mp h1).2 (by simp)
      · intro hn
        exact absurd h hn
  · rw [if_neg (by simpa using h)]
    cases e with
    | virus v =>
      simp [emph_sel, h]
    | vClass c =>
      simp only [foldl_selStep_sel]
      simp [h]

theorem foldl_selStep_rad (vMP : List (String × VMP)) (radVP : ℚ) :
    ∀ (l : List String) (s : ChartSt),
      (l.foldl (selStep vMP radVP) s).rad =
        l.foldl (fun f v => Function.update f v (radVP * (3 / 2))) s.rad
  | [], _ => rfl
  | v :: l, s => by
    rw [List.foldl_cons, List.foldl_cons, foldl_selStep_rad vMP radVP l]
    congr 1

theorem foldl_deselStep_rad (vMP : List (String × VMP)) (radVP : ℚ) :
    ∀ (l : List String) (s : ChartSt),
      (l.foldl (deselStep vMP radVP) s).rad =
        l.foldl (fun f v => Function.update f v (baseRad vMP radVP v)) s.rad
  | [], _ => rfl
  | v :: l, s => by
    rw [List.foldl_cons, List.foldl_cons, foldl_deselStep_rad vMP radVP l]
    congr 1

theorem foldl_selStep_nTxt (vMP : List (String × VMP)) (radVP : ℚ) :
    ∀ (l : List String) (s : ChartSt),
      (l.foldl (selStep vMP radVP) s).nTxt =
        l.foldl (fun f v => Function.update f v (f v + 1)) s.nTxt
  | [], _ => rfl
  | v :: l, s => by
    rw [List.foldl_cons, List.foldl_cons, foldl_selStep_nTxt vMP radVP l]
    congr 1

theorem foldl_deselStep_nTxt (vMP : List (String × VMP)) (radVP : ℚ) :
    ∀ (l : List String) (s : ChartSt),
      (l.foldl (deselStep vMP radVP) s).nTxt =
        l.foldl (fun f v => Function.update f v (f v - 1)) s.nTxt
  | [], _ => rfl
  | v :: l, s => by
    rw [List.foldl_cons, List.foldl_cons, foldl_deselStep_nTxt vMP radVP l]
    congr 1

theorem foldl_selStep_nLine (vMP : List (String × VMP)) (radVP : ℚ) :
    ∀ (l : List String) (s : ChartSt),
      (l.foldl (selStep vMP radVP) s).nLine =
        l.foldl (fun f v => Function.update f v (f v + 1)) s.nLine
  | [], _ => rfl
  | v :: l, s => by
    rw [List.foldl_cons, List.foldl_cons, foldl_selStep_nLine vMP radVP l]
    congr 1

theorem foldl_deselStep_nLine (vMP : List (String × VMP)) (radVP : ℚ) :
    ∀ (l : List String) (s : ChartSt),
      (l.foldl (deselStep vMP radVP) s).nLine =
        l.foldl (fun f v => Function.update f v (f v - 1)) s.nLine
  | [], _ => rfl
  | v :: l, s => by
    rw [List.foldl_cons, List.foldl_cons, foldl_deselStep_nLine vMP radVP l]
    congr 1

theorem foldl_update_apply {α : Type} (b : String → α) :
    ∀ (l : List String) (g : String → α) (x : String),
      (l.foldl (fun f v => Function.update f v (b v)) g) x =
        if x ∈ l then b x else g x
  | [], g, x => by simp
  | v :: l, g, x => by
    rw [List.foldl_cons, foldl_update_apply b l]
    by_cases hl : x ∈ l
    · simp [hl]
    · by_cases hv : x = v
      · subst hv
        simp [hl, Function.update_same]
      · simp [hl, hv, Function.update_noteq hv]

theorem foldl_bump_apply :
    ∀ (l : List String) (g : String → ℕ) (x : String),
      (l.foldl (fun f v => Function.update f v (f v + 1)) g) x =
        g x + l.count x
  | [], g, x => by simp
  | v :: l, g, x => by
    rw [List.foldl_cons, foldl_bump_apply l]
    by_cases hv : x = v
    · subst hv
      rw [List.count_cons_self, Function.update_same]
      omega
    · rw [List.count_cons_of_ne hv, Function.update_noteq hv]

theorem foldl_decr_apply :
    ∀ (l : List String) (g : String → ℕ) (x : String),
      (l.foldl (fun f v => Function.update f v (f v - 1)) g) x =
        g x - l.count x
  | [], g, x => by simp
  | v :: l, g, x => by
    rw [List.foldl_cons, foldl_decr_apply l]
    by_cases hv : x = v
    · subst hv
      rw [List.count_cons_self, Function.update_same]
      omega
    · rw [List.count_cons_of_ne hv, Function.update_noteq hv]

theorem foldl_arrayRemove_eq_filter :
    ∀ (l : List String) (s : List String),
      l.foldl (fun acc v => arrayRemove acc ("virus_" ++ v)) s =
        s.filter (fun x => l.all (fun v => x != "virus_" ++ v))
  | [], s => by simp
  | v :: l, s => by
    rw [List.foldl_cons, foldl_arrayRemove_eq_filter l, arrayRemove,
      List.filter_filter]
    congr 1
    funext x
    simp [List.all_cons, Bool.and_comm]

/-! ### Helper lemmas: indentation assignment -/

theorem singleQual_update (aSp : String) (p : String × VMP) (x : ℕ) :
    singleQual aSp (p.1, { p.2 with indentLevel := x }) = singleQual aSp p := by
  simp [singleQual]

theorem crossQual_update (p : String × VMP) (x : ℕ) :
    crossQual (p.1, { p.2 with indentLevel := x }) = crossQual p := by
  simp [crossQual]

theorem antSpecies_eq_of_singleQual (aSp : String) (p : String × VMP)
    (h : singleQual aSp p = true) : p.2.antSpecies = [aSp] := by
  simp only [singleQual, Bool.and_eq_true, Bool.not_eq_true',
    decide_eq_false_iff_not, not_lt] at h
  obtain ⟨hlen, hmem⟩ := h
  have hmem' : aSp ∈ p.2.antSpecies := by simpa using hmem
  rcases hl : p.2.antSpecies with _ | ⟨a, _ | ⟨b, t⟩⟩
  · rw [hl] at hmem'
    simp at hmem'
  · rw [hl] at hmem'
    simp at hmem'
    simp [hmem']
  · rw [hl] at hlen
    simp at hlen

theorem crossQual_false_of_singleQual (aSp : String) (p : String × VMP)
    (h : singleQual aSp p = true) : crossQual p = false := by
  simp [crossQual, antSpecies_eq_of_singleQual aSp p h]

theorem singleQual_false_of_crossQual (aSp : String) (p : String × VMP)
    (h : crossQual p = true) : singleQual aSp p = false := by
  simp only [crossQual, decide_eq_true_eq] at h
  simp [singleQual, h]

theorem spAux_map_ant (aSp : String) :
    ∀ (m : List (String × VMP)) (c : ℕ),
      ((assignIndentSpAux aSp c m).1).map (fun p => p.2.antSpecies) =
        m.map (fun p => p.2.antSpecies)
  | [], _ => rfl
  | p :: m, c => by
    by_cases h : singleQual aSp p
    · simp only [assignIndentSpAux, h, if_true, List.map_cons,
        spAux_map_ant aSp m]
    · simp only [assignIndentSpAux, h, Bool.false_eq_true, if_false,
        List.map_cons, spAux_map_ant aSp m]

theorem crossAux_map_ant :
    ∀ (m : List (String × VMP)) (lvl : ℕ),
      ((assignIndentCrossAux lvl m)).map (fun p => p.2.antSpecies) =
        m.map (fun p => p.2.antSpecies)
  | [], _ => rfl
  | p :: m, lvl => by
    by_cases h : crossQual p
    · simp only [assignIndentCrossAux, h, if_true, List.map_cons,
        crossAux_map_ant m]
    · simp only [assignIndentCrossAux, h, Bool.false_eq_true, if_false,
        List.map_cons, crossAux_map_ant m]

theorem spAux_filter_map_lvl (aSp : String) :
    ∀ (m : List (String × VMP)) (c : ℕ),
      ((assignIndentSpAux aSp c m).1.filter (singleQual aSp)).map
          (fun p => p.2.indentLevel) =
        (List.range ((m.filter (singleQual aSp)).length)).map
          (fun j => c + j + 1)
  | [], _ => rfl
  | p :: m, c => by
    by_cases h : singleQual aSp p
    · have hq : singleQual aSp (p.1, { p.2 with indentLevel := c + 1 }) = true := by
        rw [singleQual_update]
        exact h
      simp only [assignIndentSpAux, h, if_true, List.filter_cons, hq,
        List.map_cons, List.length_cons]
      rw [spAux_filter_map_lvl aSp m (c + 1), List.range_succ_eq_map,
        List.map_cons, List.map_map]
      congr 1
      apply List.map_congr_left
      intro j _
      simp only [Function.comp]
      congr 1
      omega
    · have hq : singleQual aSp p = false := by
        simpa using h
      simp only [assignIndentSpAux, h, Bool.false_eq_true, if_false,
        List.filter_cons, hq]
      exact spAux_filter_map_lvl aSp m c

theorem spAux_filter_other (aSp aSp' : String) (hne : aSp' ≠ aSp) :
    ∀ (m : List (String × VMP)) (c : ℕ),
      ((assignIndentSpAux aSp' c m).1.filter (singleQual aSp)) =
        m.filter (singleQual aSp)
  | [], _ => rfl
  | p :: m, c => by
    by_cases h : singleQual aSp' p
    · have hant := antSpecies_eq_of_singleQual aSp' p h
      have h1 : singleQual aSp (p.1, { p.2 with indentLevel := c + 1 }) = false := by
        rw [singleQual_update]
        simp [singleQual, hant, Ne.symm hne]
      have h2 : singleQual aSp p = false := by
        simp [singleQual, hant, Ne.symm hne]
      simp only [assignIndentSpAux, h, if_true, List.filter_cons, h1, h2,
        Bool.false_eq_true, if_false]
      exact spAux_filter_other aSp aSp' hne m (c + 1)
    · simp only [assignIndentSpAux, h, Bool.false_eq_true, if_false,
        List.filter_cons]
      rw [spAux_filter_other aSp aSp' hne m c]

theorem spAux_filter_cross (aSp : String) :
    ∀ (m : List (String × VMP)) (c : ℕ),
      ((assignIndentSpAux aSp c m).1.filter crossQual) = m.filter crossQual
  | [], _ => rfl
  | p :: m, c => by
    by_cases h : singleQual aSp p
    · have h1 : crossQual (p.1, { p.2 with indentLevel := c + 1 }) = false := by
        rw [crossQual_update]
        exact crossQual_false_of_singleQual aSp p h
      have h2 : crossQual p = false := crossQual_false_of_singleQual aSp p h
      simp only [assignIndentSpAux, h, if_true, List.filter_cons, h1, h2,
        Bool.false_eq_true, if_false]
      exact spAux_filter_cross aSp m (c + 1)
    · simp only [assignIndentSpAux, h, Bool.false_eq_true, if_false,
        List.filter_cons]
      rw [spAux_filter_cross aSp m c]

theorem crossAux_filter_single (aSp : String) :
    ∀ (m : List (String × VMP)) (lvl : ℕ),
      ((assignIndentCrossAux lvl m).filter (singleQual aSp)) =
        m.filter (singleQual aSp)
  | [], _ => rfl
  | p :: m, lvl => by
    by_cases h : crossQual p
    · have h1 : singleQual aSp (p.1, { p.2 with indentLevel := lvl + 1 }) = false := by
        rw [singleQual_update]
        exact singleQual_false_of_crossQual aSp p h
      have h2 : singleQual aSp p = false := singleQual_false_of_crossQual aSp p h
      simp only [assignIndentCrossAux, h, if_true, List.filter_cons, h1, h2,
        Bool.false_eq_true, if_false]
      exact crossAux_filter_single aSp m (lvl + 1)
    · simp only [assignIndentCrossAux, h, Bool.false_eq_true, if_false,
        List.filter_cons]
      rw [crossAux_filter_single aSp m lvl]

theorem crossAux_filter_map_lvl :
    ∀ (m : List (String × VMP)) (lvl : ℕ),
      ((assignIndentCrossAux lvl m).filter crossQual).map
          (fun p => p.2.indentLevel) =
        (List.range ((m.filter crossQual).length)).map (fun j => lvl + j + 1)
  | [], _ => rfl
  | p :: m, lvl => by
    by_cases h : crossQual p
    · have hq : crossQual (p.1, { p.2 with indentLevel := lvl + 1 }) = true := by
        rw [crossQual_update]
        exact h
      simp only [assignIndentCrossAux, h, if_true, List.filter_cons, hq,
        List.map_cons, List.length_cons]
      rw [crossAux_filter_map_lvl m (lvl + 1), List.range_succ_eq_map,
        List.map_cons, List.map_map]
      congr 1
      apply List.map_congr_left
      intro j _
      simp only [Function.comp]
      congr 1
      omega
    · have hq : crossQual p = false := by simpa using h
      simp only [assignIndentCrossAux, h, Bool.false_eq_true, if_false,
        List.filter_cons, hq]
      exact crossAux_filter_map_lvl m lvl

theorem spAux_cnt (aSp : String) :
    ∀ (m : List (String × VMP)) (c : ℕ),
      (assignIndentSpAux aSp c m).2 = c + (m.filter (singleQual aSp)).length
  | [], c => by simp [assignIndentSpAux]
  | p :: m, c => by
    by_cases h : singleQual aSp p
    · simp only [assignIndentSpAux, h, if_true, List.filter_cons]
      rw [spAux_cnt aSp m (c + 1)]
      simp only [h, if_true, List.length_cons]
      omega
    · simp only [assignIndentSpAux, h, Bool.false_eq_true, if_false,
        List.filter_cons]
      rw [spAux_cnt aSp m c]

theorem sps_map_ant :
    ∀ (names : List String) (m : List (String × VMP)),
      ((assignIndentSps names m).1).map (fun p => p.2.antSpecies) =
        m.map (fun p => p.2.antSpecies)
  | [], _ => rfl
  | n :: names, m => by
    simp only [assignIndentSps]
    rw [sps_map_ant names, spAux_map_ant n m 0]

theorem sps_filter_notmem (aSp : String) :
    ∀ (names : List String) (m : List (String × VMP)), aSp ∉ names →
      ((assignIndentSps names m).1.filter (singleQual aSp)) =
        m.filter (singleQual aSp)
  | [], _, _ => rfl
  | n :: names, m, h => by
    simp only [assignIndentSps]
    rw [sps_filter_notmem aSp names _ (fun hh => h (List.mem_cons_of_mem _ hh)),
      spAux_filter_other aSp n (fun hh => h (hh ▸ List.mem_cons_self n names)) m 0]

theorem sps_filter_cross :
    ∀ (names : List String) (m : List (String × VMP)),
      ((assignIndentSps names m).1.filter crossQual) = m.filter crossQual
  | [], _ => rfl
  | n :: names, m => by
    simp only [assignIndentSps]
    rw [sps_filter_cross names, spAux_filter_cross n m 0]

theorem sps_counters :
    ∀ (names : List String) (m : List (String × VMP)), names.Nodup →
      (assignIndentSps names m).2 =
        names.map (fun aSp => (m.filter (singleQual aSp)).length)
  | [], _, _ => rfl
  | n :: names, m, hnd => by
    have hnd' := List.nodup_cons.mp hnd
    simp only [assignIndentSps, List.map_cons]
    rw [sps_counters names _ hnd'.2, spAux_cnt n m 0]
    congr 1
    · omega
    · apply List.map_congr_left
      intro aSp ha
      have hne : n ≠ aSp := fun hh => hnd'.1 (hh ▸ ha)
      rw [spAux_filter_other aSp n hne m 0]

theorem sps_filter_map_lvl :
    ∀ (names : List String) (m : List (String × VMP)), names.Nodup →
      ∀ aSp ∈ names,
        ((assignIndentSps names m).1.filter (singleQual aSp)).map
            (fun p => p.2.indentLevel) =
          (List.range ((m.filter (singleQual aSp)).length)).map (fun j => j + 1)
  | [], _, _, aSp, hmem => absurd hmem (List.not_mem_nil aSp)
  | n :: names, m, hnd, aSp, hmem => by
    have hnd' := List.nodup_cons.mp hnd
    simp only [assignIndentSps]
    rcases List.mem_cons.mp hmem with rfl | hmem'
    · rw [sps_filter_notmem aSp names _ hnd'.1, spAux_filter_map_lvl aSp m 0]
      apply List.map_congr_left
      intro j _
      omega
    · have hne : n ≠ aSp := fun hh => hnd'.1 (hh ▸ hmem')
      rw [sps_filter_map_lvl names _ hnd'.2 aSp hmem',
        spAux_filter_other aSp n hne m 0]

theorem assignIndent_single (names : List String) (m : List (String × VMP))
    (hnd : names.Nodup) (aSp : String) (hmem : aSp ∈ names) :
    ((assignIndent names m).filter (singleQual aSp)).map
        (fun p => p.2.indentLevel) =
      (List.range ((m.filter (singleQual aSp)).length)).map (fun j => j + 1) := by
  unfold assignIndent
  rw [crossAux_filter_single, sps_filter_map_lvl names m hnd aSp hmem]

theorem assignIndent_cross (names : List String) (m : List (String × VMP)) :
    ((assignIndent names m).filter crossQual).map (fun p => p.2.indentLevel) =
      (List.range ((m.filter crossQual).length)).map
        (fun j => maxNat ((assignIndentSps names m).2) + 2 + j) := by
  unfold assignIndent
  rw [crossAux_filter_map_lvl, sps_filter_cross]
  apply List.map_congr_left
  intro j _
  omega

theorem assignIndent_map_ant (names : List String) (m : List (String × VMP)) :
    (assignIndent names m).map (fun p => p.2.antSpecies) =
      m.map (fun p => p.2.antSpecies) := by
  unfold assignIndent
  rw [crossAux_map_ant, sps_map_ant]

theorem le_foldl_max : ∀ (l : List ℕ) (a : ℕ), a ≤ l.foldl max a
  | [], a => le_refl a
  | x :: l, a => le_trans (le_max_left a x) (le_foldl_max l (max a x))

theorem mem_le_foldl_max (x : ℕ) :
    ∀ (l : List ℕ) (a : ℕ), x ∈ l → x ≤ l.foldl max a
  | y :: l, a, h => by
    rcases List.mem_cons.mp h with rfl | h'
    · exact le_trans (le_max_right a x) (le_foldl_max l (max a x))
    · exact mem_le_foldl_max x l (max a y) h'

theorem mem_le_maxNat (x : ℕ) (l : List ℕ) (h : x ∈ l) : x ≤ maxNat l :=
  mem_le_foldl_max x l 0 h

/-- Claim C3: per-category indentation assignment.  For every category
`aSp` the qualifying records (multi-presence, all presences in that
single category) receive the levels `1, 2, 3, ...` sequentially in
mapping-iteration order; the per-category counters collected by the
outer loop equal the per-category qualifying counts; and, with `max` the
maximum counter, the cross-category records receive strictly increasing
unique levels continuing upward from `max + 1` (the running level starts
at `max + 1` and is pre-incremented, so the k-th cross-category record,
0-indexed in mapping order, receives `max + 2 + k`). -/
theorem claim_C3 (names : List String) (m : List (String × VMP))
    (hnd : names.Nodup) :
    ((assignIndentSps names m).2 =
      names.map (fun aSp => (m.filter (singleQual aSp)).length)) ∧
    (∀ aSp ∈ names,
      ((assignIndent names m).filter (singleQual aSp)).map
          (fun p => p.2.indentLevel) =
        (List.range ((m.filter (singleQual aSp)).length)).map (fun j => j + 1)) ∧
    (((assignIndent names m).filter crossQual).map (fun p => p.2.indentLevel) =
      (List.range ((m.filter crossQual).length)).map
        (fun j => maxNat ((assignIndentSps names m).2) + 2 + j)) :=
  ⟨sps_counters names m hnd,
   fun aSp hmem => assignIndent_single names m hnd aSp hmem,
   assignIndent_cross names m⟩

/-- Claim C3, witness: the indentation assignment on the parsed
`exCsvFull`, whose species list is duplicate-free. -/
theorem claim_C3_witness :
    ((parseCSV exCsvFull).aSpNames.Nodup) ∧
    ((assignIndentSps (parseCSV exCsvFull).aSpNames
        (parseCSV exCsvFull).vMP).2 =
      (parseCSV exCsvFull).aSpNames.map
        (fun aSp => ((parseCSV exCsvFull).vMP.filter (singleQual aSp)).length)) :=
  ⟨by decide,
   (claim_C3 (parseCSV exCsvFull).aSpNames (parseCSV exCsvFull).vMP
     (by decide)).1⟩

/-- Any entry of the assigned mapping spanning several species has level
at least `max + 2`, where `max` is the maximum per-species counter. -/
theorem assignIndent_cross_lvl_ge (names : List String)
    (m : List (String × VMP)) (p : String × VMP)
    (hp : p ∈ assignIndent names m) (hc : crossQual p = true) :
    maxNat ((assignIndentSps names m).2) + 2 ≤ p.2.indentLevel := by
  have hpf : p ∈ (assignIndent names m).filter crossQual :=
    List.mem_filter.mpr ⟨hp, hc⟩
  have hin : p.2.indentLevel ∈
      ((assignIndent names m).filter crossQual).map
        (fun p => p.2.indentLevel) :=
    List.mem_map_of_mem _ hpf
  rw [assignIndent_cross names m] at hin
  rcases List.mem_map.mp hin with ⟨j, hj, hval⟩
  omega

/-- Any entry of the assigned mapping NOT spanning several species has a
level between 1 and `max`, given that its species list is nonempty and
drawn from `names`. -/
theorem assignIndent_single_lvl (names : List String)
    (m : List (String × VMP)) (hnd : names.Nodup)
    (hA : ∀ l ∈ m.map (fun p => p.2.antSpecies), l ≠ [] ∧ ∀ a ∈ l, a ∈ names)
    (p : String × VMP) (hp : p ∈ assignIndent names m)
    (hc : crossQual p = false) :
    1 ≤ p.2.indentLevel ∧
    p.2.indentLevel ≤ maxNat ((assignIndentSps names m).2) := by
  have hant : p.2.antSpecies ∈ m.map (fun p => p.2.antSpecies) := by
    have h1 : p.2.antSpecies ∈
        (assignIndent names m).map (fun p => p.2.antSpecies) :=
      List.mem_map_of_mem _ hp
    rwa [assignIndent_map_ant] at h1
  obtain ⟨hne, hsub⟩ := hA _ hant
  have hlen : ¬ 1 < p.2.antSpecies.length := by
    simpa [crossQual] using hc
  rcases hl : p.2.antSpecies with _ | ⟨a, _ | ⟨b, t⟩⟩
  · exact absurd hl hne
  · have haN : a ∈ names := hsub a (by rw [hl]; simp)
    have hq : singleQual a p = true := by simp [singleQual, hl]
    have hpf : p ∈ (assignIndent names m).filter (singleQual a) :=
      List.mem_filter.mpr ⟨hp, hq⟩
    have hin : p.2.indentLevel ∈
        ((assignIndent names m).filter (singleQual a)).map
          (fun p => p.2.indentLevel) :=
      List.mem_map_of_mem _ hpf
    rw [assignIndent_single names m hnd a haN] at hin
    rcases List.mem_map.mp hin with ⟨j, hj, hval⟩
    have hjlt := List.mem_range.mp hj
    have hcnt : (m.filter (singleQual a)).length ∈
        (assignIndentSps names m).2 := by
      rw [sps_counters names m hnd]
      exact List.mem_map_of_mem _ haN
    have hle := mem_le_maxNat _ _ hcnt
    omega
  · rw [hl] at hlen
    simp at hlen

/-- Claim C6: every assigned indentation level is strictly positive, and
every cross-category record's level is strictly greater than every
single-category record's level (given that each record's category list
is nonempty and drawn from the species list, as the parser guarantees
for valid inputs).  In particular, on `exCsvFull` the record `VX` with
`"1"` in two categories' columns appears in the multi-presence mapping
with `antSpecies` of length 2 and receives the deepest level, 3. -/
theorem claim_C6 (names : List String) (m : List (String × VMP))
    (hnd : names.Nodup)
    (hA : ∀ l ∈ m.map (fun p => p.2.antSpecies), l ≠ [] ∧ ∀ a ∈ l, a ∈ names) :
    (∀ p ∈ assignIndent names m, 1 ≤ p.2.indentLevel) ∧
    (∀ p ∈ assignIndent names m, ∀ q ∈ assignIndent names m,
      crossQual p = true → crossQual q = false →
        q.2.indentLevel < p.2.indentLevel) ∧
    ((List.lookup "VX" (assignIndent (parseCSV exCsvFull).aSpNames
        (parseCSV exCsvFull).vMP)).map (fun e => e.antSpecies.length) =
      some 2 ∧
     (List.lookup "VX" (assignIndent (parseCSV exCsvFull).aSpNames
        (parseCSV exCsvFull).vMP)).map (fun e => e.indentLevel) = some 3 ∧
     ∀ p ∈ assignIndent (parseCSV exCsvFull).aSpNames
        (parseCSV exCsvFull).vMP, p.2.indentLevel ≤ 3) := by
  refine ⟨?_, ?_, by decide, by decide, by decide⟩
  · intro p hp
    by_cases hc : crossQual p
    · have := assignIndent_cross_lvl_ge names m p hp hc
      omega
    · exact (assignIndent_single_lvl names m hnd hA p hp (by simpa using hc)).1
  · intro p hp q hq hcp hcq
    have h1 := assignIndent_cross_lvl_ge names m p hp hcp
    have h2 := (assignIndent_single_lvl names m hnd hA q hq hcq).2
    omega

/-- Claim C6, witness: on `exCsvFull` (duplicate-free species list, every
record's category list nonempty and drawn from it), the cross-category
record `VX` receives the deepest level, 3. -/
theorem claim_C6_witness :
    ((parseCSV exCsvFull).aSpNames.Nodup) ∧
    (List.lookup "VX" (assignIndent (parseCSV exCsvFull).aSpNames
        (parseCSV exCsvFull).vMP)).map (fun e => e.indentLevel) = some 3 :=
  ⟨by decide,
   ((claim_C6 (parseCSV exCsvFull).aSpNames (parseCSV exCsvFull).vMP
     (by decide) (by decide)).2.2).2.1⟩

/-! ### Helper lemmas: dot layout -/

theorem layoutAux_length (P : ParseOut) (radIC radVP : ℚ) :
    ∀ (ts : List (ℕ × ℕ × ℕ)) (cnt : ℕ) (M : List (String × VMP)),
      ((layoutAux P radIC radVP cnt M ts).1).length =
        ts.countP (fun t => presentAt P t.1 t.2.1 t.2.2)
  | [], _, _ => rfl
  | t :: ts, cnt, M => by
    by_cases h : presentAt P t.1 t.2.1 t.2.2
    · simp only [layoutAux, h, if_true, List.length_cons, List.countP_cons,
        layoutAux_length P radIC radVP ts]
    · simp only [layoutAux, h, Bool.false_eq_true, if_false, List.countP_cons,
        layoutAux_length P radIC radVP ts]
      simp [h]

theorem layoutAux_map_deg (P : ParseOut) (radIC radVP : ℚ) :
    ∀ (ts : List (ℕ × ℕ × ℕ)) (cnt : ℕ) (M : List (String × VMP)),
      ((layoutAux P radIC radVP cnt M ts).1).map (fun d => d.deg) =
        (List.range ((layoutAux P radIC radVP cnt M ts).1).length).map
          (fun k => ((cnt + k : ℕ) : ℚ) * (360 / (P.numVP : ℚ)) + 180)
  | [], _, _ => rfl
  | t :: ts, cnt, M => by
    by_cases h : presentAt P t.1 t.2.1 t.2.2
    · simp only [layoutAux, h, if_true, List.map_cons, List.length_cons,
        List.range_succ_eq_map, List.map_map]
      rw [layoutAux_map_deg P radIC radVP ts]
      congr 1
      apply List.map_congr_left
      intro k _
      have hk : cnt + 1 + k = cnt + Nat.succ k := by omega
      simp [Function.comp, hk]
    · simp only [layoutAux, h, Bool.false_eq_true, if_false]
      exact layoutAux_map_deg P radIC radVP ts cnt M

/-- The degrees of the laid-out dots: dot `k` (0-indexed, traversal
order) sits at `180 + k * (360 / numVP)`. -/
theorem layout_map_deg (P : ParseOut) (radIC radVP : ℚ) :
    ((layout P radIC radVP).1).map (fun d => d.deg) =
      (List.range ((layout P radIC radVP).1).length).map
        (fun (k : ℕ) => 180 + (k : ℚ) * (360 / (P.numVP : ℚ))) := by
  unfold layout
  rw [layoutAux_map_deg]
  apply List.map_congr_left
  intro k _
  push_cast
  ring

theorem mem_of_lookup {β : Type} (k : String) (b : β) :
    ∀ l : List (String × β), List.lookup k l = some b → (k, b) ∈ l
  | [], h => by simp at h
  | (a, c) :: t, h => by
    by_cases hk : k == a
    · rw [List.lookup_cons, hk] at h
      have hka : k = a := beq_iff_eq.mp hk
      have hcb : c = b := by simpa using h
      rw [hka, hcb]
      exact List.mem_cons_self _ _
    · rw [List.lookup_cons, Bool.not_eq_true] at *
      rw [hk] at h
      exact List.mem_cons_of_mem _ (mem_of_lookup k b t h)

/-- Pushing a degree onto an entry's `degArr` changes neither the
indentation level nor the species list found by any lookup. -/
theorem lookup_updDeg (v : String) (deg : ℚ) (k : String) :
    ∀ m : List (String × VMP),
      (List.lookup k (updDeg m v deg)).map
          (fun e => (e.indentLevel, e.antSpecies)) =
        (List.lookup k m).map (fun e => (e.indentLevel, e.antSpecies))
  | [] => rfl
  | p :: m => by
    have IH := lookup_updDeg v deg k m
    have hstep : updDeg (p :: m) v deg =
        (if p.1 == v then (p.1, { p.2 with degArr := p.2.degArr ++ [deg] })
          else p) :: updDeg m v deg := rfl
    rw [hstep, List.lookup_cons, List.lookup_cons]
    have hfst : (if p.1 == v then
        (p.1, { p.2 with degArr := p.2.degArr ++ [deg] }) else p).1 = p.1 := by
      split <;> rfl
    rw [hfst]
    by_cases hkk : k == p.1
    · rw [hkk]
      dsimp only
      split <;> rfl
    · rw [Bool.not_eq_true] at hkk
      rw [hkk]
      dsimp only
      exact IH

/-- The radial offset and radius fields of a freshly built dot, read off
against any map whose lookups agree with `P.vMP` on indentation level
and species list. -/
theorem mkDot_spec (P : ParseOut) (M : List (String × VMP))
    (radIC radVP : ℚ) (cnt si pi vi : ℕ)
    (hM : ∀ k, (List.lookup k M).map (fun e => (e.indentLevel, e.antSpecies)) =
      (List.lookup k P.vMP).map (fun e => (e.indentLevel, e.antSpecies))) :
    (mkDot P M radIC radVP cnt si pi vi).radOff =
      (match dotEnt P.vMP (mkDot P M radIC radVP cnt si pi vi) with
        | some e => radIC - radVP * 2 * (e.indentLevel : ℚ)
        | none => radIC) ∧
    (mkDot P M radIC radVP cnt si pi vi).r =
      (if dotSpansMultiple P.vMP (mkDot P M radIC radVP cnt si pi vi)
        then radVP * (5 / 4) else radVP) := by
  have h1 : (mkDot P M radIC radVP cnt si pi vi).radOff =
      (match dotEnt M (mkDot P M radIC radVP cnt si pi vi) with
        | some e => radIC - radVP * 2 * (e.indentLevel : ℚ)
        | none => radIC) := rfl
  have h2 : (mkDot P M radIC radVP cnt si pi vi).r =
      (match dotEnt M (mkDot P M radIC radVP cnt si pi vi) with
        | some e => if 1 < e.antSpecies.length then radVP * (5 / 4) else radVP
        | none => radVP) := rfl
  have hent : (dotEnt M (mkDot P M radIC radVP cnt si pi vi)).map
      (fun e => (e.indentLevel, e.antSpecies)) =
      (dotEnt P.vMP (mkDot P M radIC radVP cnt si pi vi)).map
        (fun e => (e.indentLevel, e.antSpecies)) := by
    unfold dotEnt
    rcases (mkDot P M radIC radVP cnt si pi vi).vSp with _ | v
    · rfl
    · exact hM v
  rw [h1, h2]
  rcases hA : dotEnt M (mkDot P M radIC radVP cnt si pi vi) with _ | e <;>
    rcases hB : dotEnt P.vMP (mkDot P M radIC radVP cnt si pi vi) with _ | e'
  · exact ⟨rfl, by simp [dotSpansMultiple, hB]⟩
  · rw [hA, hB] at hent
    simp at hent
  · rw [hA, hB] at hent
    simp at hent
  · rw [hA, hB] at hent
    simp only [Option.map_some, Option.map_some', Option.some.injEq,
      Prod.mk.injEq] at hent
    constructor
    · simp [hent.1]
    · simp [dotSpansMultiple, hB, hent.2]

/-- Every dot the layout loop emits carries the radial offset and radius
the source computes from the multi-presence map: base radius `radIC`,
indented by `vMPInd = radVP * 2` per indentation level for a
multi-presence virus, and dot radius `radVP`, enlarged to `radVP * 1.25`
for a virus spanning several species.  Stated against the INITIAL map
`P.vMP`, which is legitimate because the loop only ever appends to
`degArr`. -/
theorem layoutAux_dots_spec (P : ParseOut) (radIC radVP : ℚ) :
    ∀ (ts : List (ℕ × ℕ × ℕ)) (cnt : ℕ) (M : List (String × VMP)),
      (∀ k, (List.lookup k M).map (fun e => (e.indentLevel, e.antSpecies)) =
        (List.lookup k P.vMP).map (fun e => (e.indentLevel, e.antSpecies))) →
      ∀ d ∈ (layoutAux P radIC radVP cnt M ts).1,
        d.radOff = (match dotEnt P.vMP d with
          | some e => radIC - radVP * 2 * (e.indentLevel : ℚ)
          | none => radIC) ∧
        d.r = (if dotSpansMultiple P.vMP d then radVP * (5 / 4) else radVP)
  | [], _, _, _, d, hd => absurd hd (by simp [layoutAux])
  | t :: ts, cnt, M, hM, d, hd => by
    by_cases h : presentAt P t.1 t.2.1 t.2.2
    · rw [layoutAux] at hd
      rw [if_pos h] at hd
      have hM' : ∀ k,
          (List.lookup k
              (match (mkDot P M radIC radVP cnt t.1 t.2.1 t.2.2).vSp with
                | some v =>
                  if (List.lookup v M).isSome then
                    updDeg M v ((mkDot P M radIC radVP cnt t.1 t.2.1 t.2.2).deg + 90)
                  else M
                | none => M)).map (fun e => (e.indentLevel, e.antSpecies)) =
            (List.lookup k P.vMP).map (fun e => (e.indentLevel, e.antSpecies)) := by
        intro k
        rcases (mkDot P M radIC radVP cnt t.1 t.2.1 t.2.2).vSp with _ | v
        · exact hM k
        · by_cases hs : (List.lookup v M).isSome
          · simp only [hs, if_true]
            rw [lookup_updDeg]
            exact hM k
          · simp only [hs, Bool.false_eq_true, if_false]
            exact hM k
      rcases List.mem_cons.mp hd with rfl | hd'
      · exact mkDot_spec P M radIC radVP cnt t.1 t.2.1 t.2.2 hM
      · exact layoutAux_dots_spec P radIC radVP ts (cnt + 1) _ hM' d hd'
    · rw [layoutAux] at hd
      rw [if_neg h] at hd
      exact layoutAux_dots_spec P radIC radVP ts cnt M hM d hd

theorem layout_dots_spec (P : ParseOut) (radIC radVP : ℚ) :
    ∀ d ∈ (layout P radIC radVP).1,
      d.radOff = (match dotEnt P.vMP d with
        | some e => radIC - radVP * 2 * (e.indentLevel : ℚ)
        | none => radIC) ∧
      d.r = (if dotSpansMultiple P.vMP d then radVP * (5 / 4) else radVP) :=
  layoutAux_dots_spec P radIC radVP _ 0 P.vMP (fun _ => rfl)

/-! ### Helper lemmas: counting presences (claim C1) -/

theorem list_range_map_sum (f : ℕ → ℕ) :
    ∀ n : ℕ, ((List.range n).map f).sum = ∑ i ∈ Finset.range n, f i
  | 0 => by simp
  | n + 1 => by
    rw [List.range_succ, List.map_append, List.sum_append,
      Finset.sum_range_succ, list_range_map_sum f n]
    simp

theorem countP_range_eq_sum (q : ℕ → Bool) :
    ∀ n : ℕ, (List.range n).countP q =
      ∑ i ∈ Finset.range n, (if q i then 1 else 0)
  | 0 => by simp
  | n + 1 => by
    rw [List.range_succ, List.countP_append, Finset.sum_range_succ,
      countP_range_eq_sum q n]
    simp [List.countP_cons]

theorem countP_eq_sum_range {α : Type} (p : α → Bool) (d : α) :
    ∀ l : List α, l.countP p =
      ∑ i ∈ Finset.range l.length, (if p (l.getD i d) then 1 else 0)
  | [] => by simp
  | a :: l => by
    rw [List.countP_cons, List.length_cons, Finset.sum_range_succ']
    simp only [List.getD_cons_succ, List.getD_cons_zero]
    rw [countP_eq_sum_range p d l]

theorem countP_zip_one :
    ∀ (a b : List String), a.length = b.length →
      (a.zip b).countP (fun p => p.2 == "1") = b.countP (fun c => c == "1")
  | [], [], _ => rfl
  | [], _ :: _, h => by simp at h
  | _ :: _, [], h => by simp at h
  | a :: as, b :: bs, h => by
    simp only [List.zip_cons_cons, List.countP_cons]
    rw [countP_zip_one as bs (by simpa using h)]

theorem getD_mem {α : Type} (l : List α) (n : ℕ) (d : α) (h : n < l.length) :
    l.getD n d ∈ l := by
  rw [List.getD_eq_getElem?_getD, List.getElem?_eq_getElem h]
  exact List.getElem_mem h

theorem sum_range_three (h : ℕ → ℕ) :
    ∑ pi ∈ Finset.range 3, h pi = h 0 + h 1 + h 2 := by
  rw [Finset.sum_range_succ, Finset.sum_range_succ, Finset.sum_range_one]

theorem sum_range_three_mul (h : ℕ → ℕ) :
    ∀ k : ℕ, ∑ j ∈ Finset.range (3 * k), h j =
      ∑ s ∈ Finset.range k, (h (3 * s) + h (3 * s + 1) + h (3 * s + 2))
  | 0 => by simp
  | k + 1 => by
    have e1 : 3 * (k + 1) = (3 * k + 1 + 1) + 1 := by ring
    rw [e1, Finset.sum_range_succ, Finset.sum_range_succ, Finset.sum_range_succ,
      sum_range_three_mul h k, Finset.sum_range_succ]
    ring

theorem sum_range_mul_three (g : ℕ → ℕ) (k : ℕ) :
    ∑ j ∈ Finset.range (3 * k), g j =
      ∑ si ∈ Finset.range k, ∑ pi ∈ Finset.range 3, g (3 * si + pi) := by
  rw [sum_range_three_mul g k]
  apply Finset.sum_congr rfl
  intro si _
  rw [sum_range_three]
  simp

theorem list_map_sum_eq_sum_range {α : Type} (f : α → ℕ) (d : α) :
    ∀ l : List α, (l.map f).sum =
      ∑ i ∈ Finset.range l.length, f (l.getD i d)
  | [] => by simp
  | a :: l => by
    rw [List.map_cons, List.sum_cons, List.length_cons, Finset.sum_range_succ']
    simp only [List.getD_cons_succ, List.getD_cons_zero]
    rw [list_map_sum_eq_sum_range f d l]
    ring

theorem getD_drop {α : Type} (d : α) (l : List α) (i j : ℕ) :
    (l.drop i).getD j d = l.getD (i + j) d := by
  rw [List.getD_eq_getElem?_getD, List.getD_eq_getElem?_getD,
    List.getElem?_drop]

theorem objGet_eq_none_of_notmem :
    ∀ (row : List (String × String)) (k : String),
      k ∉ row.map Prod.fst → objGet row k = none
  | [], _, _ => rfl
  | p :: rest, k, h => by
    have h1 : k ∉ rest.map Prod.fst := fun hh => h (by simp [hh])
    have h2 : p.1 ≠ k := fun hh => h (by simp [hh])
    simp only [objGet, objGet_eq_none_of_notmem rest k h1]
    simp [h2]

theorem objGet_getD :
    ∀ (row : List (String × String)) (i : ℕ), i < row.length →
      (row.map Prod.fst).Nodup →
      objGet row ((row.map Prod.fst).getD i "") =
        some ((row.getD i ("", "")).2)
  | [], i, hi, _ => absurd hi (by simp)
  | p :: rest, 0, _, hnd => by
    simp only [List.map_cons, List.getD_cons_zero]
    have h1 : p.1 ∉ rest.map Prod.fst := (List.nodup_cons.mp hnd).1
    simp only [objGet, objGet_eq_none_of_notmem rest p.1 h1]
    simp
  | p :: rest, i + 1, hi, hnd => by
    simp only [List.map_cons, List.getD_cons_succ]
    have hi' : i < rest.length := by simpa using hi
    have IH := objGet_getD rest i hi' (List.nodup_cons.mp hnd).2
    simp only [objGet, IH]

theorem validB_spec (P : ParseOut) (h : validB P = true) :
    P.colTitle.Nodup ∧
    P.colTitle.length = 2 + 3 * P.aSpNames.length ∧
    0 < P.numVP ∧
    ∀ row ∈ P.csvData, row.map Prod.fst = P.colTitle ∧
      (∀ q ∈ row.take 2, q.2 ≠ "1") ∧
      (∀ q ∈ row.drop 2, q.2 = "0" ∨ q.2 = "1") := by
  simp only [validB, Bool.and_eq_true, decide_eq_true_eq, beq_iff_eq,
    List.all_eq_true, bne_iff_ne, ne_eq, Bool.or_eq_true] at h
  obtain ⟨⟨⟨⟨h1, h2⟩, h3⟩, h4⟩, h5⟩ := h
  refine ⟨h1, h2, h3, fun row hrow => ?_⟩
  obtain ⟨⟨ha, hb⟩, hc⟩ := h5 row hrow
  exact ⟨ha, fun q hq => hb q hq, fun q hq => hc q hq⟩

/-- Under a valid input, the layout loop's presence test at species `si`,
population `pi`, row `vi` is exactly "the stripped cell in column
`2 + 3*si + pi` equals the literal 1". -/
theorem presentAt_valid (P : ParseOut) (h : validB P = true)
    (si pi vi : ℕ) (hsi : si < P.aSpNames.length) (hpi : pi < numPopulations)
    (hvi : vi < P.csvData.length) :
    presentAt P si pi vi =
      (((P.csvData.getD vi []).getD (2 + (3 * si + pi)) ("", "")).2 == "1") := by
  obtain ⟨hnd, hlen, -, hrows⟩ := validB_spec P h
  have hrowmem : P.csvData.getD vi [] ∈ P.csvData := getD_mem _ _ _ hvi
  obtain ⟨hmap, -, hdrop⟩ := hrows _ hrowmem
  have hrl : (P.csvData.getD vi []).length = P.colTitle.length := by
    rw [← hmap, List.length_map]
  have hpi3 : pi < 3 := hpi
  have hci : 2 + (3 * si + pi) < P.colTitle.length := by
    rw [hlen]
    omega
  have hidx : 2 + si * numPopulations + pi = 2 + (3 * si + pi) := by
    show 2 + si * 3 + pi = 2 + (3 * si + pi)
    ring
  have hget : P.colTitle.get? (2 + (3 * si + pi)) =
      some (P.colTitle.getD (2 + (3 * si + pi)) "") := by
    rw [List.get?_eq_getElem?, List.getElem?_eq_getElem hci,
      List.getD_eq_getElem?_getD, List.getElem?_eq_getElem hci]
    rfl
  have hobj : objGet (P.csvData.getD vi [])
      (P.colTitle.getD (2 + (3 * si + pi)) "") =
      some (((P.csvData.getD vi []).getD (2 + (3 * si + pi)) ("", "")).2) := by
    rw [← hmap]
    exact objGet_getD _ _ (by rw [hrl, ← hmap, List.length_map] at *; omega)
      (hmap ▸ hnd)
  have hcell : ((P.csvData.getD vi []).getD (2 + (3 * si + pi)) ("", "")).2 = "0" ∨
      ((P.csvData.getD vi []).getD (2 + (3 * si + pi)) ("", "")).2 = "1" := by
    apply hdrop
    have hlt : 3 * si + pi < ((P.csvData.getD vi []).drop 2).length := by
      rw [List.length_drop, hrl, hlen]
      omega
    have hm : ((P.csvData.getD vi []).drop 2).getD (3 * si + pi) ("", "") ∈
        (P.csvData.getD vi []).drop 2 := getD_mem _ _ _ hlt
    rwa [getD_drop] at hm
  unfold presentAt
  rw [hidx, hget]
  simp only [hobj]
  rcases hcell with hc | hc <;> rw [hc] <;> decide

/-- The number of layout-loop iterations that draw a dot, as a triple sum
over species, population and row indices. -/
theorem countP_triples (P : ParseOut) :
    (layoutTriples P.aSpNames.length P.csvData.length).countP
        (fun t => presentAt P t.1 t.2.1 t.2.2) =
      ∑ si ∈ Finset.range P.aSpNames.length,
        ∑ pi ∈ Finset.range numPopulations,
          ∑ vi ∈ Finset.range P.csvData.length,
            (if presentAt P si pi vi then 1 else 0) := by
  unfold layoutTriples
  rw [List.countP_flatten, List.map_map, list_range_map_sum]
  apply Finset.sum_congr rfl
  intro si _
  simp only [Function.comp]
  rw [List.countP_flatten, List.map_map, list_range_map_sum]
  apply Finset.sum_congr rfl
  intro pi _
  simp only [Function.comp]
  rw [List.countP_map, countP_range_eq_sum]
  apply Finset.sum_congr rfl
  intro vi _
  rfl

/-- The parser invariant: `numVP` is the total count of `"1"` cells over
the kept rows. -/
theorem parseRow_numVP (ct : List String) (st : ParseSt) (li : ℕ)
    (line : String)
    (hG : st.numVP =
      (st.csvData.map (fun row => row.countP (fun q => q.2 == "1"))).sum) :
    (parseRow ct st li line).numVP =
      ((parseRow ct st li line).csvData.map
        (fun row => row.countP (fun q => q.2 == "1"))).sum := by
  simp only [parseRow]
  split
  · exact hG
  case isFalse hshort =>
    have hlen : ct.length = (((jsSplit line ',').take ct.length).map stripWS).length := by
      rw [List.length_map, List.length_take]
      omega
    split <;>
    · simp only [List.map_append, List.sum_append, List.map_cons, List.map_nil,
        List.sum_cons, List.sum_nil]
      rw [hG, countP_zip_one ct _ hlen]
      omega

theorem parseLines_numVP (ct : List String) :
    ∀ (lines : List String) (li : ℕ) (st : ParseSt),
      st.numVP =
        (st.csvData.map (fun row => row.countP (fun q => q.2 == "1"))).sum →
      (parseLines ct li lines st).numVP =
        ((parseLines ct li lines st).csvData.map
          (fun row => row.countP (fun q => q.2 == "1"))).sum
  | [], _, _, hG => hG
  | line :: rest, li, st, hG =>
    parseLines_numVP ct rest (li + 1) (parseRow ct st li line)
      (parseRow_numVP ct st li line hG)

theorem parseCSV_numVP (data : String) :
    (parseCSV data).numVP =
      ((parseCSV data).csvData.map
        (fun row => row.countP (fun q => q.2 == "1"))).sum := by
  exact parseLines_numVP _ _ 1 ⟨[], 0, []⟩ (by simp)

/-- On a valid row, the count of `"1"` cells ranges over the data columns
only (columns `2 + j`, `j < 3k`). -/
theorem rowCount_valid (ct : List String) (k : ℕ)
    (row : List (String × String))
    (hmap : row.map Prod.fst = ct) (hn : ct.length = 2 + 3 * k)
    (htake : ∀ q ∈ row.take 2, q.2 ≠ "1") :
    row.countP (fun q => q.2 == "1") =
      ∑ j ∈ Finset.range (3 * k),
        (if (row.getD (2 + j) ("", "")).2 == "1" then 1 else 0) := by
  have hrl : row.length = 2 + 3 * k := by
    rw [← hn, ← hmap, List.length_map]
  conv_lhs => rw [← List.take_append_drop 2 row]
  rw [List.countP_append]
  have h0 : (row.take 2).countP (fun q => q.2 == "1") = 0 := by
    rw [List.countP_eq_zero]
    intro q hq
    simpa using htake q hq
  rw [h0, Nat.zero_add, countP_eq_sum_range _ ("", "")]
  have hdl : (row.drop 2).length = 3 * k := by
    rw [List.length_drop, hrl]
    omega
  rw [hdl]
  apply Finset.sum_congr rfl
  intro j _
  rw [getD_drop]

/-- Master counting lemma: on a valid input the layout loop draws exactly
`numVP` dots. -/
theorem layout_length_numVP (P : ParseOut) (h : validB P = true)
    (hsum : P.numVP =
      (P.csvData.map (fun row => row.countP (fun q => q.2 == "1"))).sum)
    (radIC radVP : ℚ) :
    ((layout P radIC radVP).1).length = P.numVP := by
  obtain ⟨hnd, hlen, hpos, hrows⟩ := validB_spec P h
  rw [layout, layoutAux_length, countP_triples]
  rw [hsum, list_map_sum_eq_sum_range _ []]
  have hR : ∀ vi ∈ Finset.range P.csvData.length,
      (P.csvData.getD vi []).countP (fun q => q.2 == "1") =
        ∑ j ∈ Finset.range (3 * P.aSpNames.length),
          (if ((P.csvData.getD vi []).getD (2 + j) ("", "")).2 == "1"
            then 1 else 0) := by
    intro vi hvi
    obtain ⟨hmap, htake, -⟩ :=
      hrows _ (getD_mem _ _ _ (Finset.mem_range.mp hvi))
    exact rowCount_valid P.colTitle P.aSpNames.length _ hmap hlen htake
  rw [Finset.sum_congr rfl hR,
    Finset.sum_congr rfl (fun vi _ =>
      sum_range_mul_three
        (fun j => if ((P.csvData.getD vi []).getD (2 + j) ("", "")).2 == "1"
          then 1 else 0) P.aSpNames.length)]
  simp only [numPopulations]
  conv_rhs => rw [Finset.sum_comm]
  apply Finset.sum_congr rfl
  intro si hsi
  rw [Finset.sum_comm]
  apply Finset.sum_congr rfl
  intro vi hvi
  apply Finset.sum_congr rfl
  intro pi hpi
  rw [presentAt_valid P h si pi vi (Finset.mem_range.mp hsi)
    (Finset.mem_range.mp hpi) (Finset.mem_range.mp hvi)]

theorem vpSlot_disjoint (n : ℕ) (hn : 0 < n) (k1 k2 : ℕ) (hne : k1 ≠ k2) :
    Disjoint (vpSlot n k1) (vpSlot n k2) := by
  have hw : 0 < (360 : ℚ) / (n : ℚ) := by
    apply div_pos (by norm_num)
    exact_mod_cast hn
  wlog hlt : k1 < k2 generalizing k1 k2
  · exact (this k2 k1 hne.symm (by omega)).symm
  rw [Set.disjoint_left]
  intro x hx1 hx2
  simp only [vpSlot, Set.mem_Ico] at hx1 hx2
  have hk : ((k1 : ℚ) + 1) ≤ (k2 : ℚ) := by
    have hk' : (k1 + 1 : ℕ) ≤ k2 := hlt
    exact_mod_cast hk'
  have h2 : ((k1 : ℚ) + 1) * (360 / (n : ℚ)) ≤ (k2 : ℚ) * (360 / (n : ℚ)) :=
    mul_le_mul_of_nonneg_right hk (le_of_lt hw)
  linarith [hx1.2, hx2.1]

theorem vpSlot_cover (n : ℕ) (hn : 0 < n) :
    (⋃ k ∈ Finset.range n, vpSlot n k) = Set.Ico (180 : ℚ) 540 := by
  have hw : (0 : ℚ) ≤ 360 / (n : ℚ) := by positivity
  have key : ∀ j : ℕ, (⋃ k ∈ Finset.range j, vpSlot n k) =
      Set.Ico (180 : ℚ) (180 + (j : ℚ) * (360 / (n : ℚ))) := by
    intro j
    induction j with
    | zero => simp
    | succ j ih =>
      rw [Finset.range_succ, Finset.set_biUnion_insert, ih, Set.union_comm]
      push_cast
      show Set.Ico (180 : ℚ) (180 + (j : ℚ) * (360 / (n : ℚ))) ∪
        Set.Ico (180 + (j : ℚ) * (360 / (n : ℚ)))
          (180 + ((j : ℚ) + 1) * (360 / (n : ℚ))) =
        Set.Ico (180 : ℚ) (180 + ((j : ℚ) + 1) * (360 / (n : ℚ)))
      apply Set.Ico_union_Ico_eq_Ico
      · nlinarith
      · nlinarith
  rw [key n]
  have hn' : (n : ℚ) ≠ 0 := Nat.cast_ne_zero.mpr hn.ne'
  rw [mul_comm, div_mul_cancel₀ _ hn']
  norm_num

/-- Claim C5, counterexample: on the specification's own example header
`Virus,Class,SpA Pop1,...` the one-word species names make every column
its own "species" (`speciesOf "SpA Pop1" = "SpA Pop1"`), so the layout
loop runs over 6 species × 3 populations and reads 12 out-of-range
columns whose `undefined` cells are NOT skipped
(`parseInt(undefined) == 0` is false).  The loader does yield
`numVP = 2`, but the loop draws 26 dots, not two dots at 180° and
360°. -/
theorem claim_C5_counterexample :
    (parseCSV exCsvSpec).numVP = 2 ∧
    ((processCSV exCsvSpec 1 1).2).length = 26 ∧
    ((processCSV exCsvSpec 1 1).2).map (fun d => d.deg) ≠ [180, 360] := by
  refine ⟨by decide, by decide, fun h => ?_⟩
  have h1 := congrArg List.length h
  rw [List.length_map] at h1
  have h2 : ((processCSV exCsvSpec 1 1).2).length = 26 := by decide
  rw [h2] at h1
  exact absurd h1 (by decide)

/-- Claim C5 (amended): the angular slot width is `360 / numVP` degrees
and dot `k` of the traversal (category, then sub-group, then record, in
loader order, each presence advancing the monotonic counter) sits at
`180 + k * (360 / numVP)`.  The numeric example holds once the example
header respects the naming convention (first TWO whitespace-separated
words form the category): for `exCsvPair` the loader yields `numVP = 2`,
each record is single-presence (`vMP` empty), the slot width is 180
degrees, and the two dots sit at 180 and 360 degrees.  (On the
specification's literal header the loop draws 26 dots — see the
counterexample.) -/
theorem claim_C5 :
    (∀ (P : ParseOut) (radIC radVP : ℚ),
      ((layout P radIC radVP).1).map (fun d => d.deg) =
        (List.range ((layout P radIC radVP).1).length).map
          (fun (k : ℕ) => 180 + (k : ℚ) * (360 / (P.numVP : ℚ)))) ∧
    (parseCSV exCsvPair).numVP = 2 ∧
    (parseCSV exCsvPair).vMP = [] ∧
    (360 : ℚ) / ((parseCSV exCsvPair).numVP : ℚ) = 180 ∧
    ((processCSV exCsvPair 1 1).2).map (fun d => d.deg) = [180, 360] := by
  have hnum : (parseCSV exCsvPair).numVP = 2 := by decide
  refine ⟨layout_map_deg, hnum, by decide, ?_, ?_⟩
  · rw [hnum]
    norm_num
  · have hlen : ((layout ((processCSV exCsvPair 1 1).1) 1 1).1).length = 2 := by
      decide
    have hnum' : ((processCSV exCsvPair 1 1).1).numVP = 2 := by decide
    show ((layout ((processCSV exCsvPair 1 1).1) 1 1).1).map (fun d => d.deg) =
      [180, 360]
    rw [layout_map_deg, hlen, hnum']
    norm_num [List.range_succ]

/-- Claim C1: on every valid CSV input the layout loop draws exactly
`numVP` presence dots, where `numVP` is the count of cells (in the rows
kept by the parser) that equal `"1"` after whitespace stripping; dot `k`
(0-indexed, traversal order) receives the slot of width `360 / numVP`
degrees at angle `180 + k * (360 / numVP)`; and the `numVP` slots are
pairwise disjoint and cover the full circle `[180°, 540°)` exactly
once. -/
theorem claim_C1 (data : String) (radIC radVP : ℚ)
    (h : validB (parseCSV data) = true) :
    ((processCSV data radIC radVP).2).length = (parseCSV data).numVP ∧
    (parseCSV data).numVP =
      ((parseCSV data).csvData.map
        (fun row => row.countP (fun q => q.2 == "1"))).sum ∧
    ((processCSV data radIC radVP).2).map (fun d => d.deg) =
      (List.range ((parseCSV data).numVP)).map
        (fun (k : ℕ) =>
          180 + (k : ℚ) * (360 / (((parseCSV data).numVP : ℕ) : ℚ))) ∧
    (∀ k1 k2 : ℕ, k1 ≠ k2 →
      Disjoint (vpSlot (parseCSV data).numVP k1)
        (vpSlot (parseCSV data).numVP k2)) ∧
    (⋃ k ∈ Finset.range (parseCSV data).numVP,
      vpSlot (parseCSV data).numVP k) = Set.Ico (180 : ℚ) 540 := by
  have hpos : 0 < (parseCSV data).numVP := (validB_spec _ h).2.2.1
  have hlen : ((layout ((processCSV data radIC radVP).1) radIC radVP).1).length =
      (parseCSV data).numVP :=
    layout_length_numVP ((processCSV data radIC radVP).1) h
      (parseCSV_numVP data) radIC radVP
  refine ⟨hlen, parseCSV_numVP data, ?_, ?_, ?_⟩
  · show ((layout ((processCSV data radIC radVP).1) radIC radVP).1).map
      (fun d => d.deg) = _
    rw [layout_map_deg, hlen]
    rfl
  · intro k1 k2 hne
    exact vpSlot_disjoint _ hpos k1 k2 hne
  · exact vpSlot_cover _ hpos

/-- Claim C1, witness: the valid input `exCsvFull` (5 presences). -/
theorem claim_C1_witness :
    validB (parseCSV exCsvFull) = true ∧
    ((processCSV exCsvFull 100 1).2).length = (parseCSV exCsvFull).numVP :=
  ⟨by decide, (claim_C1 exCsvFull 100 1 (by decide)).1⟩

/-! ### Claim theorems: interaction -/

/-- Claim C8: pointer-enter, pointer-leave and click all invoke the same
toggle handler `selectVirusEntry`; its postcondition is that the clicked
entry's membership in `selectedEntry` is flipped (in the set → removed,
otherwise → added); hence a leave following an enter returns the entry to
unselected, and two consecutive toggles restore the original membership
(so two leaves without an intervening enter re-select). -/
theorem claim_C8 :
    (onMouseOverVPD = onMouseOutVPD ∧ onMouseOutVPD = onMouseClick) ∧
    (∀ tLeg vMP radVP e st,
      entryName e ∈ (selectVirusEntry tLeg vMP radVP e st).selectedEntry ↔
        entryName e ∉ st.selectedEntry) ∧
    (∀ tLeg vMP radVP e st,
      entryName e ∈
        (selectVirusEntry tLeg vMP radVP e
          (selectVirusEntry tLeg vMP radVP e st)).selectedEntry ↔
        entryName e ∈ st.selectedEntry) :=
  ⟨⟨rfl, rfl⟩, selectVirusEntry_flip, fun tLeg vMP radVP e st => by
    rw [selectVirusEntry_flip, selectVirusEntry_flip]
    exact not_not⟩

/-- Claim C10: `rot_pt` is a rotation about the given center, hence an
isometry: the (squared) distance of `rot_pt(pt, ct, deg)` from `ct`
equals that of `pt` from `ct`, and `rot_pt(pt, ct, 0) = pt`;
consequently every presence dot's drawn center `dotCenter` lies at
exactly its computed radial offset `radOff` from the chart center
(squared distances, since the offset is signed). -/
theorem claim_C10 :
    ∀ (pt ct : ℝ × ℝ) (deg : ℝ),
      ((rot_pt pt ct deg).1 - ct.1) ^ 2 + ((rot_pt pt ct deg).2 - ct.2) ^ 2 =
        (pt.1 - ct.1) ^ 2 + (pt.2 - ct.2) ^ 2 ∧
      rot_pt pt ct 0 = pt ∧
      ∀ d : DotD,
        ((dotCenter ct d).1 - ct.1) ^ 2 + ((dotCenter ct d).2 - ct.2) ^ 2 =
          (d.radOff : ℝ) ^ 2 := by
  intro pt ct deg
  refine ⟨?_, ?_, ?_⟩
  · have h := Real.sin_sq_add_cos_sq (-deg * (Real.pi / 180))
    simp only [rot_pt]
    linear_combination ((pt.1 - ct.1) ^ 2 + (pt.2 - ct.2) ^ 2) * h
  · simp [rot_pt]
  · intro d
    have h := Real.sin_sq_add_cos_sq (-(d.deg : ℝ) * (Real.pi / 180))
    simp only [dotCenter, rot_pt]
    linear_combination ((d.radOff : ℝ) ^ 2) * h

/-- Claim C9: a data row whose comma-split field count is less than the
number of (kept) header columns is skipped silently — it leaves the whole
parser state (`csvData`, `numVP`, `vMP`) unchanged and only advances the
line index — while a row with at least as many fields is processed,
appending exactly its `colTitle ↦ stripped-cell` record to `csvData`. -/
theorem claim_C9 (colTitle : List String) (st : ParseSt) (li : ℕ)
    (line : String) (rest : List String) :
    ((jsSplit line ',').length < colTitle.length →
      parseRow colTitle st li line = st ∧
      parseLines colTitle li (line :: rest) st =
        parseLines colTitle (li + 1) rest st) ∧
    (¬ (jsSplit line ',').length < colTitle.length →
      (parseRow colTitle st li line).csvData =
        st.csvData ++
          [colTitle.zip (((jsSplit line ',').take colTitle.length).map stripWS)]) := by
  constructor
  · intro h
    have hrow : parseRow colTitle st li line = st := by
      unfold parseRow
      rw [if_pos h]
    exact ⟨hrow, by rw [parseLines, hrow]⟩
  · intro h
    simp only [parseRow, if_neg h]
    split <;> rfl

/-- Claim C9, witness: a concrete short row is dropped whole, a concrete
full row is appended to `csvData`. -/
theorem claim_C9_witness :
    ((jsSplit "x,y" ',').length < (["A", "B", "C"] : List String).length ∧
      parseRow ["A", "B", "C"] ⟨[], 0, []⟩ 1 "x,y" = ⟨[], 0, []⟩) ∧
    (¬ (jsSplit "x,y,z" ',').length < (["A", "B", "C"] : List String).length ∧
      (parseRow ["A", "B", "C"] ⟨[], 0, []⟩ 1 "x,y,z").csvData =
        ([] : List (List (String × String))) ++
          [(["A", "B", "C"] : List String).zip
            (((jsSplit "x,y,z" ',').take 3).map stripWS)]) :=
  ⟨⟨by decide,
    ((claim_C9 ["A", "B", "C"] ⟨[], 0, []⟩ 1 "x,y" []).1 (by decide)).1⟩,
   ⟨by decide,
    (claim_C9 ["A", "B", "C"] ⟨[], 0, []⟩ 1 "x,y,z" []).2 (by decide)⟩⟩

theorem toggle_virus_on (tLeg : List (String × List String))
    (vMP : List (String × VMP)) (radVP : ℚ) (v : String) (st : ChartSt)
    (h : "virus_" ++ v ∉ st.selectedEntry) :
    selectVirusEntry tLeg vMP radVP (.virus v) st =
      ⟨st.selectedEntry ++ ["virus_" ++ v],
       Function.update st.rad v (radVP * (3 / 2)),
       Function.update st.nTxt v (st.nTxt v + 1),
       Function.update st.nLine v (st.nLine v + 1)⟩ := by
  unfold selectVirusEntry
  rw [if_neg (by simpa [entryName] using h)]
  rfl

theorem toggle_virus_off (tLeg : List (String × List String))
    (vMP : List (String × VMP)) (radVP : ℚ) (v : String) (st : ChartSt)
    (h : "virus_" ++ v ∈ st.selectedEntry) :
    selectVirusEntry tLeg vMP radVP (.virus v) st =
      ⟨arrayRemove st.selectedEntry ("virus_" ++ v),
       Function.update st.rad v (baseRad vMP radVP v),
       Function.update st.nTxt v (st.nTxt v - 1),
       Function.update st.nLine v (st.nLine v - 1)⟩ := by
  unfold selectVirusEntry
  rw [if_pos (by simpa [entryName] using h)]
  rfl

/-- Claim C2, counterexample to the no-duplicates invariant: starting
from the empty selection, toggling the virus `V1` and then its
classification `CL` leaves `selectedEntry` with the identifier
`virus_V1` twice — the classification-select loop pushes every member
virus without a membership check. -/
theorem claim_C2_counterexample :
    (selectVirusEntry tLegEx [] 1 (.vClass "CL")
        (selectVirusEntry tLegEx [] 1 (.virus "V1") stEmpty)).selectedEntry =
      ["virus_V1", "vClassification_CL", "virus_V1"] ∧
    ¬ ((selectVirusEntry tLegEx [] 1 (.vClass "CL")
        (selectVirusEntry tLegEx [] 1 (.virus "V1") stEmpty)).selectedEntry).Nodup := by
  constructor
  · decide
  · decide

/-- Claim C2 (amended): toggling a classification to selected appends the
classification identifier and the identifier of every virus listed under
it to `selectedEntry` (unconditionally — so a virus already selected on
its own ends up listed twice), and toggling it to deselected removes
every occurrence of the classification identifier and of every member
virus identifier.  The selection list is therefore duplicate-free only
for event sequences that never select a classification while one of its
member records is individually selected. -/
theorem claim_C2 (tLeg : List (String × List String))
    (vMP : List (String × VMP)) (radVP : ℚ) (c : String) (st : ChartSt) :
    ("vClassification_" ++ c ∉ st.selectedEntry →
      (selectVirusEntry tLeg vMP radVP (.vClass c) st).selectedEntry =
        st.selectedEntry ++ ("vClassification_" ++ c) ::
          ((List.lookup c tLeg).getD []).map (fun v => "virus_" ++ v)) ∧
    ("vClassification_" ++ c ∈ st.selectedEntry →
      (selectVirusEntry tLeg vMP radVP (.vClass c) st).selectedEntry =
        st.selectedEntry.filter (fun x =>
          x != "vClassification_" ++ c &&
          ((List.lookup c tLeg).getD []).all (fun v => x != "virus_" ++ v))) := by
  constructor
  · intro h
    unfold selectVirusEntry
    rw [if_neg (by simpa [entryName] using h)]
    simp only [entryName, foldl_selStep_sel]
    simp
  · intro h
    unfold selectVirusEntry
    rw [if_pos (by simpa [entryName] using h)]
    simp only [entryName, foldl_deselStep_sel, foldl_arrayRemove_eq_filter]
    rw [arrayRemove, List.filter_filter]
    congr 1
    funext x
    simp [Bool.and_comm]

/-- Claim C2, witness: on the concrete legend `tLegEx` and the empty
state, selecting the classification `CL` appends `vClassification_CL`
and `virus_V1`. -/
theorem claim_C2_witness :
    ("vClassification_" ++ "CL" ∉ stEmpty.selectedEntry) ∧
    (selectVirusEntry tLegEx [] 1 (.vClass "CL") stEmpty).selectedEntry =
      stEmpty.selectedEntry ++ ("vClassification_" ++ "CL") ::
        ((List.lookup "CL" tLegEx).getD []).map (fun v => "virus_" ++ v) :=
  ⟨by decide, (claim_C2 tLegEx [] 1 "CL" stEmpty).1 (by decide)⟩

/-- Claim C4, counterexample: the round trip is not the identity when a
member record of the toggled classification is individually selected
beforehand.  In `stV1Sel` the virus `V1` is selected (its entry in the
list, its dots at `radVP * 1.5 = 3/2`); toggling its classification `CL`
on and off removes `virus_V1` from the selection and resets the dots to
the base radius `1`, so neither the selection set nor the rendered
radius is restored — refuting the claim, whose only premise is that the
toggled entry itself is unselected. -/
theorem claim_C4_counterexample :
    (selectVirusEntry tLegEx [] 1 (.vClass "CL")
        (selectVirusEntry tLegEx [] 1 (.vClass "CL") stV1Sel)).selectedEntry = [] ∧
    stV1Sel.selectedEntry = ["virus_V1"] ∧
    (selectVirusEntry tLegEx [] 1 (.vClass "CL")
        (selectVirusEntry tLegEx [] 1 (.vClass "CL") stV1Sel)).rad "V1" = 1 ∧
    stV1Sel.rad "V1" = 3 / 2 ∧
    selectVirusEntry tLegEx [] 1 (.vClass "CL")
        (selectVirusEntry tLegEx [] 1 (.vClass "CL") stV1Sel) ≠ stV1Sel := by
  refine ⟨by decide, by decide, by rfl, by rfl, fun h => ?_⟩
  have h1 := congrArg ChartSt.selectedEntry h
  revert h1
  decide

/-- Claim C4 (amended): toggling an unselected record — or an unselected
classification none of whose member records is individually selected —
twice in succession is the identity on the whole rendered state, given
that the affected dots start at their computed base radius
(`radVP`, or `radVP * 1.25` for a record spanning several species, which
is what the claim asserts the pre-selection value to be): the dots return
to that radius, the added label and connecting line are removed again,
and `selectedEntry` is restored. -/
theorem claim_C4 (tLeg : List (String × List String))
    (vMP : List (String × VMP)) (radVP : ℚ) (e : Entry) (st : ChartSt)
    (hsel : entryName e ∉ st.selectedEntry)
    (hmem : ∀ v ∈ members tLeg e, "virus_" ++ v ∉ st.selectedEntry)
    (hrad : ∀ v ∈ members tLeg e, st.rad v = baseRad vMP radVP v) :
    selectVirusEntry tLeg vMP radVP e (selectVirusEntry tLeg vMP radVP e st) =
      st := by
  cases e with
  | virus v =>
    have hv : "virus_" ++ v ∉ st.selectedEntry := hmem v (by simp [members])
    rw [toggle_virus_on tLeg vMP radVP v st hv,
      toggle_virus_off tLeg vMP radVP v _ (by simp)]
    have hradv : st.rad v = baseRad vMP radVP v := hrad v (by simp [members])
    refine ChartSt.ext ?_ ?_ ?_ ?_
    · show arrayRemove (st.selectedEntry ++ ["virus_" ++ v]) ("virus_" ++ v) =
        st.selectedEntry
      rw [arrayRemove, List.filter_append]
      have h1 : st.selectedEntry.filter (fun ele => ele != "virus_" ++ v) =
          st.selectedEntry :=
        List.filter_eq_self.mpr (fun x hx => by
          simp only [bne_iff_ne, ne_eq]
          exact fun hEq => hv (hEq ▸ hx))
      have h2 : (["virus_" ++ v] : List String).filter
          (fun ele => ele != "virus_" ++ v) = [] := by simp
      rw [h1, h2, List.append_nil]
    · show Function.update (Function.update st.rad v (radVP * (3 / 2))) v
        (baseRad vMP radVP v) = st.rad
      rw [Function.update_idem, ← hradv, Function.update_eq_self]
    · show Function.update (Function.update st.nTxt v (st.nTxt v + 1)) v
        (Function.update st.nTxt v (st.nTxt v + 1) v - 1) = st.nTxt
      rw [Function.update_same, Nat.add_sub_cancel, Function.update_idem,
        Function.update_eq_self]
    · show Function.update (Function.update st.nLine v (st.nLine v + 1)) v
        (Function.update st.nLine v (st.nLine v + 1) v - 1) = st.nLine
      rw [Function.update_same, Nat.add_sub_cancel, Function.update_idem,
        Function.update_eq_self]
  | vClass c =>
    have hL : members tLeg (.vClass c) = (List.lookup c tLeg).getD [] := rfl
    rw [hL] at hmem hrad
    have hc : "vClassification_" ++ c ∉ st.selectedEntry := by
      simpa [entryName] using hsel
    -- components of the first (select) toggle
    have e1 : (selectVirusEntry tLeg vMP radVP (.vClass c) st).selectedEntry =
        st.selectedEntry ++ ("vClassification_" ++ c) ::
          ((List.lookup c tLeg).getD []).map (fun v => "virus_" ++ v) := by
      unfold selectVirusEntry
      rw [if_neg (by simpa [entryName] using hc)]
      simp only [entryName, foldl_selStep_sel]
      simp
    have e2 : (selectVirusEntry tLeg vMP radVP (.vClass c) st).rad =
        ((List.lookup c tLeg).getD []).foldl
          (fun f v => Function.update f v (radVP * (3 / 2))) st.rad := by
      unfold selectVirusEntry
      rw [if_neg (by simpa [entryName] using hc)]
      exact foldl_selStep_rad vMP radVP _ _
    have e3 : (selectVirusEntry tLeg vMP radVP (.vClass c) st).nTxt =
        ((List.lookup c tLeg).getD []).foldl
          (fun f v => Function.update f v (f v + 1)) st.nTxt := by
      unfold selectVirusEntry
      rw [if_neg (by simpa [entryName] using hc)]
      exact foldl_selStep_nTxt vMP radVP _ _
    have e4 : (selectVirusEntry tLeg vMP radVP (.vClass c) st).nLine =
        ((List.lookup c tLeg).getD []).foldl
          (fun f v => Function.update f v (f v + 1)) st.nLine := by
      unfold selectVirusEntry
      rw [if_neg (by simpa [entryName] using hc)]
      exact foldl_selStep_nLine vMP radVP _ _
    -- the second toggle takes the deselect branch
    have hmem1 : entryName (.vClass c) ∈
        (selectVirusEntry tLeg vMP radVP (.vClass c) st).selectedEntry := by
      rw [e1]
      simp [entryName]
    conv_lhs => rw [selectVirusEntry]
    rw [if_pos (by simpa using hmem1)]
    refine ChartSt.ext ?_ ?_ ?_ ?_
    · rw [foldl_deselStep_sel]
      dsimp only
      rw [foldl_arrayRemove_eq_filter, arrayRemove, List.filter_filter, e1,
        List.filter_append]
      have hA : st.selectedEntry.filter (fun a =>
          (((List.lookup c tLeg).getD []).all (fun v => a != "virus_" ++ v)) &&
          (a != entryName (.vClass c))) =
          st.selectedEntry :=
        List.filter_eq_self.mpr (fun x hx => by
          simp only [entryName, Bool.and_eq_true, bne_iff_ne, ne_eq,
            List.all_eq_true]
          exact ⟨fun v hvL hEq => hmem v hvL (hEq ▸ hx),
            fun hEq => hc (hEq ▸ hx)⟩)
      have hB : (("vClassification_" ++ c) ::
          ((List.lookup c tLeg).getD []).map (fun v => "virus_" ++ v)).filter
            (fun a =>
              (((List.lookup c tLeg).getD []).all (fun v => a != "virus_" ++ v)) &&
              (a != entryName (.vClass c)))
          = [] := by
        refine List.filter_eq_nil_iff.mpr (fun x hx => ?_)
        rcases List.mem_cons.mp hx with rfl | hx'
        · simp [entryName]
        · rcases List.mem_map.mp hx' with ⟨v, hvL, rfl⟩
          simp only [Bool.and_eq_true, List.all_eq_true, bne_iff_ne, ne_eq,
            not_and]
          intro hall
          exact absurd (hall v hvL) (by simp)
      rw [hA, hB, List.append_nil]
    · rw [foldl_deselStep_rad]
      dsimp only
      funext x
      rw [foldl_update_apply, e2, foldl_update_apply]
      by_cases hx : x ∈ (List.lookup c tLeg).getD []
      · rw [if_pos hx]
        exact (hrad x hx).symm
      · rw [if_neg hx, if_neg hx]
    · rw [foldl_deselStep_nTxt]
      dsimp only
      funext x
      rw [foldl_decr_apply, e3, foldl_bump_apply, Nat.add_sub_cancel]
    · rw [foldl_deselStep_nLine]
      dsimp only
      funext x
      rw [foldl_decr_apply, e4, foldl_bump_apply, Nat.add_sub_cancel]

/-- Claim C4, witness: on the concrete legend `tLegEx` and the baseline
state `stEmpty` (classification `CL` unselected, its member `V1`
unselected and at base radius), toggling `CL` twice is the identity. -/
theorem claim_C4_witness :
    (entryName (.vClass "CL") ∉ stEmpty.selectedEntry) ∧
    selectVirusEntry tLegEx [] 1 (.vClass "CL")
      (selectVirusEntry tLegEx [] 1 (.vClass "CL") stEmpty) = stEmpty :=
  ⟨by decide,
   claim_C4 tLegEx [] 1 (.vClass "CL") stEmpty (by decide) (by decide)
     (fun v _ => rfl)⟩


/-- A dot whose map lookup succeeds names a virus whose entry is in the
map. -/
theorem dotEnt_entry (vMP : List (String × VMP)) (d : DotD) (e : VMP)
    (he : dotEnt vMP d = some e) :
    ∃ v, d.vSp = some v ∧ (v, e) ∈ vMP := by
  rcases hv : d.vSp with _ | v
  · unfold dotEnt at he
    rw [hv] at he
    simp at he
  · unfold dotEnt at he
    rw [hv] at he
    exact ⟨v, rfl, mem_of_lookup v e vMP he⟩

/-- Claim C7: every presence dot the pipeline draws sits at radial
offset `radIC - vMPInd * indentLevel` (`vMPInd = radVP * 2`) when its
record is in the multi-presence mapping, and at the base radius `radIC`
otherwise; its drawn radius is `radVP * 1.25` when the record spans
more than one ant species and `radVP` otherwise.  Consequently, under
the parser guarantees for valid input (duplicate-free species list,
every multi-presence record's species list nonempty and drawn from it)
and a positive dot radius, every dot of a cross-category record sits at
a strictly smaller radial offset (deeper) than every dot of a record
that does not span several categories. -/
theorem claim_C7 (data : String) (radIC radVP : ℚ) (hrv : 0 < radVP)
    (hnd : (parseCSV data).aSpNames.Nodup)
    (hA : ∀ l ∈ (parseCSV data).vMP.map (fun p => p.2.antSpecies),
      l ≠ [] ∧ ∀ a ∈ l, a ∈ (parseCSV data).aSpNames) :
    (∀ d ∈ (processCSV data radIC radVP).2,
      d.radOff = (match dotEnt (processCSV data radIC radVP).1.vMP d with
        | some e => radIC - radVP * 2 * (e.indentLevel : ℚ)
        | none => radIC) ∧
      d.r = (if dotSpansMultiple (processCSV data radIC radVP).1.vMP d
        then radVP * (5 / 4) else radVP)) ∧
    (∀ d1 ∈ (processCSV data radIC radVP).2,
      ∀ d2 ∈ (processCSV data radIC radVP).2,
        dotSpansMultiple (processCSV data radIC radVP).1.vMP d1 = true →
        dotSpansMultiple (processCSV data radIC radVP).1.vMP d2 = false →
        d1.radOff < d2.radOff) := by
  set P0 := parseCSV data
  set P : ParseOut := { P0 with vMP := assignIndent P0.aSpNames P0.vMP }
  have hfst : (processCSV data radIC radVP).1 = P := rfl
  have hsnd : (processCSV data radIC radVP).2 = (layout P radIC radVP).1 := rfl
  rw [hfst, hsnd]
  have hspec := layout_dots_spec P radIC radVP
  refine ⟨hspec, ?_⟩
  intro d1 hd1 d2 hd2 hc1 hc2
  rcases he1 : dotEnt P.vMP d1 with _ | e1
  · simp [dotSpansMultiple, he1] at hc1
  have hlen1 : 1 < e1.antSpecies.length := by
    simpa [dotSpansMultiple, he1] using hc1
  obtain ⟨v1, hv1, hm1⟩ := dotEnt_entry P.vMP d1 e1 he1
  have hcq1 : crossQual (v1, e1) = true := by
    simpa [crossQual] using hlen1
  have hge1 : maxNat ((assignIndentSps P0.aSpNames P0.vMP).2) + 2 ≤
      e1.indentLevel :=
    assignIndent_cross_lvl_ge P0.aSpNames P0.vMP (v1, e1) hm1 hcq1
  have hr1 : d1.radOff = radIC - radVP * 2 * (e1.indentLevel : ℚ) := by
    rw [(hspec d1 hd1).1, he1]
  rcases he2 : dotEnt P.vMP d2 with _ | e2
  · have hr2 : d2.radOff = radIC := by
      rw [(hspec d2 hd2).1, he2]
    have hx : (2 : ℚ) ≤ (e1.indentLevel : ℚ) := by
      have : 2 ≤ e1.indentLevel := by omega
      exact_mod_cast this
    nlinarith [mul_pos hrv (lt_of_lt_of_le two_pos hx)]
  · have hnl2 : ¬ 1 < e2.antSpecies.length := by
      simpa [dotSpansMultiple, he2] using hc2
    obtain ⟨v2, hv2, hm2⟩ := dotEnt_entry P.vMP d2 e2 he2
    have hcq2 : crossQual (v2, e2) = false := by
      simpa [crossQual] using hnl2
    have hle2 : e2.indentLevel ≤
        maxNat ((assignIndentSps P0.aSpNames P0.vMP).2) :=
      (assignIndent_single_lvl P0.aSpNames P0.vMP hnd hA (v2, e2) hm2 hcq2).2
    have hr2 : d2.radOff = radIC - radVP * 2 * (e2.indentLevel : ℚ) := by
      rw [(hspec d2 hd2).1, he2]
    have hltN : e2.indentLevel < e1.indentLevel := by omega
    have hlt : (e2.indentLevel : ℚ) < (e1.indentLevel : ℚ) := by
      exact_mod_cast hltN
    nlinarith [mul_pos hrv (sub_pos.mpr hlt)]

/-- Claim C7, witness: on the valid input `exCsvFull` with base radius
100 and dot radius 1, every drawn dot satisfies the radial-offset and
radius formulas. -/
theorem claim_C7_witness :
    (0 : ℚ) < 1 ∧
    ∀ d ∈ (processCSV exCsvFull 100 1).2,
      d.radOff = (match dotEnt (processCSV exCsvFull 100 1).1.vMP d with
        | some e => 100 - 1 * 2 * (e.indentLevel : ℚ)
        | none => 100) ∧
      d.r = (if dotSpansMultiple (processCSV exCsvFull 100 1).1.vMP d
        then 1 * (5 / 4) else 1) :=
  ⟨by norm_num,
   (claim_C7 exCsvFull 100 1 (by norm_num) (by decide) (by decide)).1⟩

end VirusChart
